import Mathlib

/-!
# CasADi `MX` expression handles: a shallow embedding of `casadi/mx/mx.cpp`

The symbolic-matrix core builds a reference-counted DAG of matrix-valued
operations.  A handle (`MX`) points to exactly one immutable node; nodes are
allocated bottom-up, so the graph is a tree with sharing.  The embedding keeps

* the node a handle points to as a value of the inductive type `MX`, whose
  first field `addr` is the identity of the node (the address returned by
  `new`), so that `y.get()==x.get()` is `y.addr = x.addr`;
* the allocator as a counter `s : Nat` threaded through every function that
  may execute `new`: the node allocated in state `s` receives address `s` and
  the state becomes `s + 1`.  "No node is allocated" is "the state is
  returned unchanged";
* C++ exceptions as the `Except Error` monad;
* `int` quantities as `Int`/`Nat` (indices may be negative, sizes are not;
  sizes are assumed to fit an `int`); the flat-index arithmetic of `setSub`
  is wrapped to 32 bits by `int32`;
* a `const MX&` argument of a method that assigns to `*this` while it still
  reads the argument as a `ConstRef`, which says whether the reference is
  bound to `*this` itself.

Functions of `mx.cpp` are translated line by line.  Collaborators that live in
other translation units (the operation tables of `casadi_math`, the predicates
of `mx_tools`, the node constructors) are collected in the record `Ctx` and
stay abstract in every general theorem; `stdCtx` is one concrete choice used
to evaluate the code on explicit inputs.
-/

namespace CasADi

/-! ## Sparsity patterns -/

/-- Modelled from the spec: the sparsity pattern (`CRSSparsity`, declared in
`crs_sparsity.hpp`, which is not part of the sources at hand): row count,
column count and the row-compressed coordinate list of the structural
nonzeros (`col` lists the column of every nonzero, row by row; `rowind` holds
the offset of every row in `col`). -/
structure CRSSparsity where
  nrow : Nat
  ncol : Nat
  col : List Nat
  rowind : List Nat
deriving DecidableEq, Repr

namespace CRSSparsity

/-- Number of structural nonzeros, `CRSSparsity::size()`. -/
def size (sp : CRSSparsity) : Nat := sp.col.length

/-- Row count, `CRSSparsity::size1()`. -/
def size1 (sp : CRSSparsity) : Nat := sp.nrow

/-- Column count, `CRSSparsity::size2()`. -/
def size2 (sp : CRSSparsity) : Nat := sp.ncol

/-- Number of elements, structural zeros included, `CRSSparsity::numel()`. -/
def numel (sp : CRSSparsity) : Nat := sp.nrow * sp.ncol

/-- Modelled from the spec: `CRSSparsity(nrow,ncol)`, the pattern of the given
shape without any structural nonzero. -/
def sparse (nrow ncol : Nat) : CRSSparsity :=
  { nrow := nrow, ncol := ncol, col := [], rowind := List.replicate (nrow + 1) 0 }

/-- Modelled from the spec: `CRSSparsity(nrow,ncol,true)`, the dense pattern
of the given shape: every row lists the columns `0 .. ncol-1`. -/
def dense (nrow ncol : Nat) : CRSSparsity :=
  { nrow := nrow, ncol := ncol,
    col := (List.replicate nrow (List.range ncol)).flatten,
    rowind := (List.range (nrow + 1)).map (fun i => i * ncol) }

/-- The coordinates `(row, column)` of the structural nonzeros, in the order
of their nonzero index. -/
def coords (sp : CRSSparsity) : List (Nat × Nat) :=
  (List.range sp.nrow).flatMap (fun i =>
    ((sp.col.drop (sp.rowind.getD i 0)).take
      (sp.rowind.getD (i + 1) 0 - sp.rowind.getD i 0)).map (fun j => (i, j)))

/-- Modelled from the spec: `CRSSparsity::getNZ(i,j)`, the operation
`locate(i, j)`: the nonzero index of position `(i, j)`, or `-1` when the
position is a structural zero. -/
def getNZ (sp : CRSSparsity) (i j : Int) : Int :=
  if 0 ≤ i ∧ 0 ≤ j ∧ (i.toNat, j.toNat) ∈ sp.coords then
    Int.ofNat (sp.coords.indexOf (i.toNat, j.toNat))
  else -1

/-- Modelled from the spec: the derived flag `CRSSparsity::diagonal()`: the
pattern is square with exactly the diagonal positions as nonzeros. -/
def diagonal (sp : CRSSparsity) : Bool :=
  sp.nrow == sp.ncol && sp.col == List.range sp.nrow &&
    sp.rowind == List.range (sp.nrow + 1)

end CRSSparsity

/-! ## Operation tags, errors -/

/-- Operation tags named in `mx.cpp` (the enumeration itself is declared in
`casadi_math.hpp`). -/
inductive Operation where
  | ADD | SUB | MUL | DIV | NEG | EXP | LOG | POW | CONSTPOW | SQRT
  | SIN | COS | TAN | ASIN | ACOS | ATAN | FLOOR | CEIL | FMIN | FMAX | ERF
deriving DecidableEq, Repr

/-- The exceptions raised in `mx.cpp`, named after the message they carry. -/
inductive Error where
  /-- `casadi_assert_message(..., "Dimension mismatch")` in `MX::binary`. -/
  | dimensionMismatch
  /-- "requested at(k), but that is out of bounds" in `getNZ(int)`, `setNZ(int,_)`. -/
  | outOfBounds
  /-- "length of non-zero indices must match size of rhs" in `setNZ`. -/
  | lengthMismatch
  /-- "right hand size must match dimension of left hand side in assignment". -/
  | assignmentMismatch
  /-- A plain `casadi_assert` that does not hold. -/
  | assertion
  /-- "Not implemented" of the matrix-division operators. -/
  | notImplemented
  /-- "inner_prod: first factor not a vector". -/
  | firstFactorNotVector
  /-- "inner_prod: second factor not a vector". -/
  | secondFactorNotVector
  /-- "inner_prod: dimension mismatch". -/
  | innerProdDimensionMismatch
deriving DecidableEq, Repr

/-! ## Nodes and handles -/

/-- A handle together with the node it references.  `addr` is the identity of
the node, `sp` its sparsity pattern; the remaining fields are those of the
node variant: `SymbolicMatrix`, `MXConstant` (the entries of the wrapped
numeric matrix, one per structural nonzero; they are only ever compared with
`0`, `1` and `-1`), `UnaryOp`, `SparseSparseOp`, `Mapping` (dependencies and,
for every nonzero slot, the source nonzero `nzmap` and the position `depind`
of the supplying dependency, `-1` for no contributor) and `Multiplication`. -/
inductive MX where
  | symbolic (addr : Nat) (sp : CRSSparsity) (name : String)
  | constant (addr : Nat) (sp : CRSSparsity) (data : List Int)
  | unaryOp (addr : Nat) (sp : CRSSparsity) (op : Operation) (x : MX)
  | binaryOp (addr : Nat) (sp : CRSSparsity) (op : Operation) (x y : MX)
  | mapping (addr : Nat) (sp : CRSSparsity) (dep : List MX)
      (nzmap : List Int) (depind : List Int)
  | multiplication (addr : Nat) (sp : CRSSparsity) (x y : MX)

namespace MX

/-- Identity of the referenced node, `get()`. -/
def addr : MX → Nat
  | symbolic a _ _ => a
  | constant a _ _ => a
  | unaryOp a _ _ _ => a
  | binaryOp a _ _ _ _ => a
  | mapping a _ _ _ _ => a
  | multiplication a _ _ _ => a

/-- Method `MX::sparsity()`, lines 408-410. -/
def sparsity : MX → CRSSparsity
  | symbolic _ sp _ => sp
  | constant _ sp _ => sp
  | unaryOp _ sp _ _ => sp
  | binaryOp _ sp _ _ _ => sp
  | mapping _ sp _ _ _ => sp
  | multiplication _ sp _ _ => sp

/-- Method `MX::size()`, lines 237-239. -/
def size (m : MX) : Nat := m.sparsity.size

/-- Method `MX::size1()`, lines 241-243. -/
def size1 (m : MX) : Nat := m.sparsity.size1

/-- Method `MX::numel()`, lines 245-247. -/
def numel (m : MX) : Nat := m.sparsity.numel

/-- Method `MX::size2()`, lines 249-251. -/
def size2 (m : MX) : Nat := m.sparsity.size2

/-- Method `MX::empty()`, lines 371-373. -/
def empty (m : MX) : Bool := m.numel == 0

/-- Method `MX::dense()`, lines 375-377. -/
def isDense (m : MX) : Bool := m.numel == m.size

/-- Modelled from the spec: the structural predicate `isOperation(tag)` of a
node (`mx_node.hpp` and the node classes are not part of the sources at
hand): true exactly for a unary or binary operation node carrying the tag. -/
def isOperation : MX → Operation → Bool
  | unaryOp _ _ op _, t => op == t
  | binaryOp _ _ op _ _, t => op == t
  | _, _ => false

/-- Modelled from the spec: the first dependency `dep(0)` of a node.  It is
only called on nodes for which `isOperation` holds, which have one; on the
other nodes the handle itself is returned. -/
def dep0 : MX → MX
  | unaryOp _ _ _ x => x
  | binaryOp _ _ _ x _ => x
  | m => m

/-- Length of the chain of first dependencies through operation nodes. -/
def height : MX → Nat
  | unaryOp _ _ _ x => height x + 1
  | binaryOp _ _ _ x _ => height x + 1
  | _ => 0

end MX

/-! ## Collaborators from other translation units -/

/-- The parts of the library that `mx.cpp` calls and that are defined in
other files: the operation tables `casadi_math<double>::f0x_is_zero` and
`fx0_is_zero`, the predicates `isZero`, `isOne`, `isMinusOne`, `isIdentity`
and the rewriting `simplifyMapping` of `mx_tools`, and the sparsity pattern
computed by the constructors of `UnaryOp` and `SparseSparseOp`; further the
functions `trans`, `diag` and `unite` of `mx_tools` (which may allocate), the
pattern computed by the constructor of `Multiplication`, and the pattern
operations `CRSSparsity::erase` (the new pattern and the surviving nonzero
indices) and `CRSSparsity::enlarge`. -/
structure Ctx where
  f0x_is_zero : Operation → Bool
  fx0_is_zero : Operation → Bool
  isZero : MX → Bool
  isOne : MX → Bool
  isMinusOne : MX → Bool
  isIdentity : MX → Bool
  simplifyMapping : MX → MX
  unarySparsity : Operation → CRSSparsity → CRSSparsity
  binarySparsity : Operation → CRSSparsity → CRSSparsity → CRSSparsity
  trans : MX → Nat → MX × Nat
  diag : MX → Nat → MX × Nat
  unite : MX → MX → Nat → Except Error (MX × Nat)
  multiplicationSparsity : CRSSparsity → CRSSparsity → CRSSparsity
  sparsityErase : CRSSparsity → List Int → List Int → Except Error (CRSSparsity × List Int)
  sparsityEnlarge : CRSSparsity → Nat → Nat → List Int → List Int → Except Error CRSSparsity

/-! ## Mapping nodes -/

/-- Modelled from the spec: `range(n)` of `stl_vector_tools` (not part of the
sources at hand), the index list `0, 1, ..., n-1` that pairs slots one-to-one. -/
def range (n : Nat) : List Int := (List.range n).map Int.ofNat

/-- The store `v[i] = a` into a vector of `int`; an index outside the vector
leaves it unchanged. -/
def setAt (v : List Int) (i : Int) (a : Int) : List Int :=
  if 0 ≤ i then v.set i.toNat a else v

/-- The loop `for k: v[nz[k]] = a[k]`, in the order of the index list. -/
def assignNZ (v : List Int) (nz : List Int) (a : List Int) : List Int :=
  (nz.zip a).foldl (fun acc p => setAt acc p.1 p.2) v

/-- Modelled from the spec: `new Mapping(sp)` (`mapping.hpp` is not part of
the sources at hand): a Mapping node of the given pattern without
dependencies, every nonzero slot holding the sentinel for "no contributor". -/
def Mapping (s : Nat) (sp : CRSSparsity) : MX :=
  .mapping s sp [] (List.replicate sp.size (-1)) (List.replicate sp.size (-1))

namespace MX

/-- Modelled from the spec: `Mapping::addDependency(d, nz_d, nz)`: the
dependency `d` is appended to the dependency list and, for every `k`, the
destination slot `nz[k]` is made to take source nonzero `nz_d[k]` of `d`.
Both index lists have the same length at every call in `mx.cpp`. -/
def addDependency_nz (m : MX) (d : MX) (nz_d nz : List Int) : MX :=
  match m with
  | mapping a sp dep nzmap depind =>
      mapping a sp (dep ++ [d]) (assignNZ nzmap nz nz_d)
        (assignNZ depind nz (List.replicate nz.length (Int.ofNat dep.length)))
  | m => m

/-- Modelled from the spec: `Mapping::addDependency(d, nz_d)`, which fills the
destination slots `0, 1, ...` in order. -/
def addDependency (m : MX) (d : MX) (nz_d : List Int) : MX :=
  m.addDependency_nz d nz_d (range nz_d.length)

/-- Constructor `MX::MX(int nrow, int ncol)`, lines 71-73. -/
def mkSparse (nrow ncol : Nat) (s : Nat) : MX × Nat :=
  (Mapping s (CRSSparsity.sparse nrow ncol), s + 1)

/-- Method `MX::zeros(int nrow, int ncol)`, lines 379-381. -/
def zeros (nrow ncol : Nat) (s : Nat) : MX × Nat :=
  mkSparse nrow ncol s

/-- Method `MX::unary`, lines 302-309. -/
def unary (c : Ctx) (op : Operation) (x : MX) (s : Nat) : MX × Nat :=
  if c.f0x_is_zero op && c.isZero x then
    zeros x.size1 x.size2 s
  else
    (unaryOp s (c.unarySparsity op x.sparsity) op x, s + 1)

/-- Method `MX::matrix_matrix`, lines 319-321. -/
def matrix_matrix (c : Ctx) (op : Operation) (x y : MX) (s : Nat) : MX × Nat :=
  (binaryOp s (c.binarySparsity op x.sparsity y.sparsity) op x y, s + 1)

/-- Method `MX::scalar_matrix`, lines 311-313. -/
def scalar_matrix (c : Ctx) (op : Operation) (x y : MX) (s : Nat) : MX × Nat :=
  matrix_matrix c op x y s

/-- Method `MX::matrix_scalar`, lines 315-317. -/
def matrix_scalar (c : Ctx) (op : Operation) (x y : MX) (s : Nat) : MX × Nat :=
  matrix_matrix c op x y s

/-- Method `MX::binary`, lines 283-300. -/
def binary (c : Ctx) (op : Operation) (x y : MX) (s : Nat) : Except Error (MX × Nat) :=
  -- Make sure that dimensions match
  if !(x.numel == 1 || y.numel == 1 || (x.size1 == y.size1 && x.size2 == y.size2)) then
    .error .dimensionMismatch
  -- Quick return if zero
  else if (c.f0x_is_zero op && c.isZero x) || (c.fx0_is_zero op && c.isZero y) then
    .ok (zeros (max x.size1 y.size1) (max x.size2 y.size2) s)
  -- Create binary node
  else if x.numel == 1 then
    .ok (scalar_matrix c op x y s)
  else if y.numel == 1 then
    .ok (matrix_scalar c op x y s)
  else
    .ok (matrix_matrix c op x y s)

/-- Unary minus `MX::operator-()`, lines 397-403. -/
def neg (c : Ctx) (x : MX) (s : Nat) : MX × Nat :=
  if x.isOperation .NEG then
    (x.dep0, s)
  else
    unary c .NEG x s

mutual

/-- Operator `operator+(const MX&, const MX&)`, lines 253-266; the local
`samedim` is written out where it is used. -/
def add (c : Ctx) (x y : MX) (s : Nat) : Except Error (MX × Nat) :=
  if ((x.size1 == y.size1 && x.size2 == y.size2) || x.numel == 1) && c.isZero x then
    .ok (y, s)
  else if ((x.size1 == y.size1 && x.size2 == y.size2) || y.numel == 1) && c.isZero y then
    .ok (x, s)
  else if hy : y.isOperation .NEG = true then
    sub c x y.dep0 s
  else if hx : x.isOperation .NEG = true then
    sub c y x.dep0 s
  else
    binary c .ADD x y s
termination_by x.height + y.height
decreasing_by
  · cases y <;> simp [isOperation] at hy <;> simp [dep0, height]
  · cases x <;> simp [isOperation] at hx <;> simp [dep0, height] <;> omega

/-- Operator `operator-(const MX&, const MX&)`, lines 268-281; the local
`samedim` is written out where it is used. -/
def sub (c : Ctx) (x y : MX) (s : Nat) : Except Error (MX × Nat) :=
  if ((x.size1 == y.size1 && x.size2 == y.size2) || x.numel == 1) && c.isZero x then
    .ok (neg c y s)
  else if ((x.size1 == y.size1 && x.size2 == y.size2) || y.numel == 1) && c.isZero y then
    .ok (x, s)
  else if hy : y.isOperation .NEG = true then
    add c x y.dep0 s
  else if y.addr == x.addr then
    .ok (zeros x.size1 x.size2 s)
  else
    binary c .SUB x y s
termination_by x.height + y.height
decreasing_by
  cases y <;> simp [isOperation] at hy <;> simp [dep0, height]

end

/-- Operator `operator*(const MX&, const MX&)`, lines 323-336. -/
def mul (c : Ctx) (x y : MX) (s : Nat) : Except Error (MX × Nat) :=
  if ((x.size1 == y.size1 && x.size2 == y.size2) || x.numel == 1) && c.isOne x then
    .ok (y, s)
  else if ((x.size1 == y.size1 && x.size2 == y.size2) || x.numel == 1) && c.isMinusOne x then
    .ok (neg c y s)
  else if ((x.size1 == y.size1 && x.size2 == y.size2) || y.numel == 1) && c.isOne y then
    .ok (x, s)
  else if ((x.size1 == y.size1 && x.size2 == y.size2) || y.numel == 1) && c.isMinusOne y then
    .ok (neg c x s)
  else
    binary c .MUL x y s

/-- Operator `operator/(const MX&, const MX&)`, lines 338-345. -/
def div (c : Ctx) (x y : MX) (s : Nat) : Except Error (MX × Nat) :=
  if ((x.size1 == y.size1 && x.size2 == y.size2) || y.numel == 1) && c.isOne y then
    .ok (x, s)
  else
    binary c .DIV x y s

/-- Method `MX::getNZ(const vector<int>& k)`, lines 190-197. -/
def getNZ_vector (this : MX) (k : List Int) (s : Nat) : MX × Nat :=
  let sp := CRSSparsity.dense k.length 1
  let ret := Mapping s sp
  let ret := ret.addDependency this k
  (ret, s + 1)

/-- Method `MX::getNZ(int k)`, lines 180-188. -/
def getNZ (this : MX) (k : Int) (s : Nat) : Except Error (MX × Nat) :=
  let k := if k < 0 then k + this.size else k
  if k ≥ this.size then
    .error .outOfBounds
  else
    .ok (getNZ_vector this [k] s)

/-- Method `MX::setNZ(const vector<int>& k, const MX& el)`, lines 209-226.  The
method assigns to `*this`: the result is the outcome of the call, the
node referenced by `*this` after the call, and the allocator state. -/
def setNZ_vector (c : Ctx) (this : MX) (k : List Int) (el : MX) (s : Nat) :
    Except Error Unit × MX × Nat :=
  if k.length != el.size && el.size != 1 then
    (.error .lengthMismatch, this, s)
  else
    let ret := Mapping s this.sparsity
    let ret := ret.addDependency this (range this.size)
    let ret :=
      if el.size == 1 then
        ret.addDependency_nz el (List.replicate k.length 0) k
      else
        ret.addDependency_nz el (range k.length) k
    let ret := c.simplifyMapping ret
    (.ok (), ret, s + 1)

/-- Method `MX::setNZ(int k, const MX& el)`, lines 199-207. -/
def setNZ (c : Ctx) (this : MX) (k : Int) (el : MX) (s : Nat) :
    Except Error Unit × MX × Nat :=
  let k := if k < 0 then k + this.size else k
  if k ≥ this.size then
    (.error .outOfBounds, this, s)
  else
    setNZ_vector c this [k] el s

/-- Constructor `MX::MX(double x)`, lines 47-49: a constant scalar leaf. -/
def mkConstant (x : Int) (s : Nat) : MX × Nat :=
  (constant s (CRSSparsity.dense 1 1) [x], s + 1)

/-- Method `MX::getSub(int i, int j)`, lines 119-134. -/
def getSub (this : MX) (i j : Int) (s : Nat) : MX × Nat :=
  let ind := this.sparsity.getNZ i j
  if ind ≥ 0 then
    ((Mapping s (CRSSparsity.dense 1 1)).addDependency this [ind], s + 1)
  else
    ((Mapping s (CRSSparsity.sparse 1 1)).addDependency this [], s + 1)

/-- Method `MX::prod`, lines 492-511. -/
def prod (c : Ctx) (x y : MX) (s : Nat) : Except Error (MX × Nat) :=
  -- Check if we can simplify the product
  if c.isIdentity x then
    .ok (y, s)
  else if c.isIdentity y then
    .ok (x, s)
  else if c.isZero x || c.isZero y then
    .ok (zeros x.size1 y.size2 s)
  else if x.numel == 1 || y.numel == 1 then
    mul c x y s
  else if x.sparsity.diagonal && y.size2 == 1 then
    mul c (c.diag x s).1 y (c.diag x s).2
  else if y.sparsity.diagonal && x.size1 == 1 then
    mul c x (c.trans (c.diag y s).1 (c.diag y s).2).1 (c.trans (c.diag y s).1 (c.diag y s).2).2
  else
    .ok (multiplication (c.trans y s).2
      (c.multiplicationSparsity x.sparsity (c.trans y s).1.sparsity) x (c.trans y s).1,
      (c.trans y s).2 + 1)

/-- The body `sum += x(i)*y(i)` of the loop of `MX::inner_prod`, where the
element access `x(i)` of a column vector is `getSub(i,0)`. -/
def inner_prod_step (c : Ctx) (x y : MX) (acc : Except Error (MX × Nat)) (i : Nat) :
    Except Error (MX × Nat) :=
  match acc with
  | .error e => .error e
  | .ok (sum, s) =>
    match mul c (getSub x i 0 s).1 (getSub y i 0 (getSub x i 0 s).2).1
        (getSub y i 0 (getSub x i 0 s).2).2 with
    | .error e => .error e
    | .ok (p, s1) => add c sum p s1

/-- Method `MX::inner_prod`, lines 517-526. -/
def inner_prod (c : Ctx) (x y : MX) (s : Nat) : Except Error (MX × Nat) :=
  if x.size2 != 1 then
    .error .firstFactorNotVector
  else if y.size2 != 1 then
    .error .secondFactorNotVector
  else if x.size1 != y.size1 then
    .error .innerProdDimensionMismatch
  else
    (List.range x.size1).foldl (inner_prod_step c x y) (.ok (mkConstant 0 s))

/-- Constructor `MX::MX(int nrow, int ncol, const MX& val)`, lines 450-458. -/
def mkFilled (nrow ncol : Nat) (val : MX) (s : Nat) : Except Error (MX × Nat) :=
  -- Make sure that val is scalar
  if val.numel != 1 then
    .error .assertion
  else if val.size != 1 then
    .error .assertion
  else
    let sp := CRSSparsity.dense nrow ncol
    .ok ((Mapping s sp).addDependency val (List.replicate sp.size 0), s + 1)

/-- Method `MX::erase`, lines 421-436. -/
def erase (c : Ctx) (this : MX) (ii jj : List Int) (s : Nat) :
    Except Error Unit × MX × Nat :=
  match c.sparsityErase this.sparsity ii jj with
  | .error e => (.error e, this, s)
  | .ok (sp, mapping0) =>
    if mapping0.length != this.size then
      (.ok (), c.simplifyMapping ((Mapping s sp).addDependency this mapping0), s + 1)
    else
      (.ok (), this, s)

/-- Method `MX::enlarge`, lines 438-448. -/
def enlarge (c : Ctx) (this : MX) (nrow ncol : Nat) (ii jj : List Int) (s : Nat) :
    Except Error Unit × MX × Nat :=
  match c.sparsityEnlarge this.sparsity nrow ncol ii jj with
  | .error e => (.error e, this, s)
  | .ok sp =>
    (.ok (), c.simplifyMapping ((Mapping s sp).addDependency this (range this.size)), s + 1)

/-- The assignment `(*this)[k] = el[m]` of the dense mode of `setSub`.  As for
`at(int)`, lines 228-235, reading a nonzero of the constant `el` is
`el.getNZ(m)` and assigning to a nonzero of `*this` is `setNZ(k, .)`. -/
def assignElem (c : Ctx) (this el : MX) (k m : Int) (s : Nat) :
    Except Error Unit × MX × Nat :=
  match getNZ el m s with
  | .error e => (.error e, this, s)
  | .ok (v, s1) => setNZ c this k v s1

/-- A `const MX&` argument of a method that assigns to `*this`.  The reference
is bound either to a handle other than `*this`, which references the same
node `m` during the whole call, or to the handle `*this` itself, as in
`x.setSub(ii, jj, x)`. -/
inductive ConstRef where
  | other (m : MX)
  | self

/-- The node a `const MX&` argument references at the moment it is read,
`this` being the node `*this` references at that moment. -/
def ConstRef.get (el : ConstRef) (this : MX) : MX :=
  match el with
  | .other m => m
  | .self => this

/-- The value of an arithmetic expression of type `int`: the result is
wrapped into the range of a 32-bit two's complement integer. -/
def int32 (z : Int) : Int :=
  (z + 2147483648) % 4294967296 - 2147483648

/-- One pass of the inner loop body of the dense mode,
`(*this)[ii[i]*size2() + jj[j]] = el[i*el.size2()+j]`; both `*this` and `el`
are read as they are when the pass starts, and an exception raised earlier
ends the loops. -/
def setSub_dense_step (c : Ctx) (el : ConstRef) (ii jj : List Int) (i : Nat)
    (acc : Except Error Unit × MX × Nat) (j : Nat) : Except Error Unit × MX × Nat :=
  match acc with
  | (.ok (), this, s) =>
      assignElem c this (el.get this)
        (int32 (int32 (ii.getD i 0 * (this.size2 : Int)) + jj.getD j 0))
        (int32 (int32 ((i : Int) * ((el.get this).size2 : Int)) + (j : Int))) s
  | r => r

/-- The dense mode of `setSub`, lines 159-164: the two nested loops. -/
def setSub_dense (c : Ctx) (this : MX) (el : ConstRef) (ii jj : List Int) (s : Nat) :
    Except Error Unit × MX × Nat :=
  (List.range ii.length).foldl (fun acc i =>
    (List.range jj.length).foldl (setSub_dense_step c el ii jj i) acc) (.ok (), this, s)

/-- The sparse mode of `setSub`, lines 166-176; `el` is copied into `el_ext`
after `erase` has assigned to `*this`. -/
def setSub_sparse (c : Ctx) (this : MX) (el : ConstRef) (ii jj : List Int) (s : Nat) :
    Except Error Unit × MX × Nat :=
  -- Remove submatrix to be replaced
  match erase c this ii jj s with
  | (.error e, this1, s1) => (.error e, this1, s1)
  | (.ok (), this1, s1) =>
    -- Extend el to the same dimension as this
    match enlarge c (el.get this1) this1.size1 this1.size2 ii jj s1 with
    | (.error e, _, s2) => (.error e, this1, s2)
    | (.ok (), el_ext, s2) =>
      -- Unite the sparsity patterns
      match c.unite this1 el_ext s2 with
      | .error e => (.error e, this1, s2)
      | .ok (r, s3) => (.ok (), r, s3)

/-- The part of `setSub` after the scalar branch, lines 156-177. -/
def setSub_assign (c : Ctx) (this : MX) (ii jj : List Int) (el : ConstRef) (s : Nat) :
    Except Error Unit × MX × Nat :=
  if ii.length != (el.get this).size1 then
    (.error .assignmentMismatch, this, s)
  else if jj.length != (el.get this).size2 then
    (.error .assignmentMismatch, this, s)
  else if this.isDense && (el.get this).isDense then
    setSub_dense c this el ii jj s
  else
    setSub_sparse c this el ii jj s

/-- Method `MX::setSub(const vector<int>& ii, const vector<int>& jj, const MX& el)`,
lines 148-178.  The method assigns to `*this`: the result is the outcome of
the call, the node referenced by `*this` after the call, and the allocator
state.  The argument `el` is a reference, which may be bound to `*this`; the
value built in the scalar branch is a temporary, a handle of its own. -/
def setSub (c : Ctx) (this : MX) (ii jj : List Int) (el : ConstRef) (s : Nat) :
    Except Error Unit × MX × Nat :=
  -- Allow el to be a 1x1
  if h : ((el.get this).size = 1 ∧ (el.get this).numel = 1) ∧
      (ii.length > 1 ∨ jj.length > 1) then
    match hm : mkFilled ii.length jj.length (el.get this) s with
    | .error e => (.error e, this, s)
    | .ok (el1, s1) => setSub c this ii jj (.other el1) s1
  else
    setSub_assign c this ii jj el s
termination_by
  (if ((el.get this).size = 1 ∧ (el.get this).numel = 1) ∧
      (ii.length > 1 ∨ jj.length > 1) then 1 else 0)
decreasing_by
  have hel : el1.size = ii.length * jj.length := by
    unfold mkFilled at hm
    split_ifs at hm
    simp only [Except.ok.injEq, Prod.mk.injEq] at hm
    rw [← hm.1]
    simp [Mapping, addDependency, addDependency_nz, size, sparsity, CRSSparsity.size,
      CRSSparsity.dense]
  have hn : ¬ ((((ConstRef.other el1).get this).size = 1 ∧
      ((ConstRef.other el1).get this).numel = 1) ∧ (ii.length > 1 ∨ jj.length > 1)) := by
    rintro ⟨⟨h1, -⟩, h2⟩
    have h1' : el1.size = 1 := h1
    rw [hel] at h1'
    have := Nat.eq_one_of_mul_eq_one_right h1'
    have := Nat.eq_one_of_mul_eq_one_left h1'
    omega
  rw [if_neg hn, if_pos h]
  exact Nat.zero_lt_one

mutual

/-- The code of `operator+` run with a bound on the depth of the calls it
makes: `none` when the bound is reached. -/
def addFuel : Nat → Ctx → MX → MX → Nat → Option (Except Error (MX × Nat))
  | 0, _, _, _, _ => none
  | n + 1, c, x, y, s =>
    if ((x.size1 == y.size1 && x.size2 == y.size2) || x.numel == 1) && c.isZero x then
      some (.ok (y, s))
    else if ((x.size1 == y.size1 && x.size2 == y.size2) || y.numel == 1) && c.isZero y then
      some (.ok (x, s))
    else if y.isOperation .NEG = true then
      subFuel n c x y.dep0 s
    else if x.isOperation .NEG = true then
      subFuel n c y x.dep0 s
    else
      some (binary c .ADD x y s)

/-- The code of `operator-` run with a bound on the depth of the calls it
makes: `none` when the bound is reached. -/
def subFuel : Nat → Ctx → MX → MX → Nat → Option (Except Error (MX × Nat))
  | 0, _, _, _, _ => none
  | n + 1, c, x, y, s =>
    if ((x.size1 == y.size1 && x.size2 == y.size2) || x.numel == 1) && c.isZero x then
      some (.ok (neg c y s))
    else if ((x.size1 == y.size1 && x.size2 == y.size2) || y.numel == 1) && c.isZero y then
      some (.ok (x, s))
    else if y.isOperation .NEG = true then
      addFuel n c x y.dep0 s
    else if y.addr == x.addr then
      some (.ok (zeros x.size1 x.size2 s))
    else
      some (binary c .SUB x y s)

end

/-- Method `MX::__mrdivide__`, line 609. -/
def __mrdivide__ (c : Ctx) (this b : MX) (s : Nat) : Except Error (MX × Nat) :=
  if b.numel == 1 then div c this b s else .error .notImplemented

/-- Method `MX::__rmrdivide__`, line 610. -/
def __rmrdivide__ (c : Ctx) (this b : MX) (s : Nat) : Except Error (MX × Nat) :=
  if this.numel == 1 then div c b this s else .error .notImplemented

/-- Method `MX::__ldivide__`, line 611. -/
def __ldivide__ (c : Ctx) (this b : MX) (s : Nat) : Except Error (MX × Nat) :=
  if b.numel == 1 then div c this b s else .error .notImplemented

/-- Method `MX::__rmldivide__`, line 612. -/
def __rmldivide__ (c : Ctx) (this b : MX) (s : Nat) : Except Error (MX × Nat) :=
  if this.numel == 1 then div c b this s else .error .notImplemented

end MX

/-! ## A concrete choice of the collaborators -/

namespace CRSSparsity

/-- Whether position `(i, j)` is a structural nonzero. -/
def has (sp : CRSSparsity) (i j : Nat) : Bool :=
  ((sp.col.drop (sp.rowind.getD i 0)).take
    (sp.rowind.getD (i + 1) 0 - sp.rowind.getD i 0)).contains j

/-- The pattern of the given shape whose structural nonzeros are the
positions selected by `p`. -/
def ofPred (nrow ncol : Nat) (p : Nat → Nat → Bool) : CRSSparsity :=
  let rows := (List.range nrow).map (fun i => (List.range ncol).filter (p i))
  { nrow := nrow, ncol := ncol, col := rows.flatten,
    rowind := (List.range (nrow + 1)).map (fun i => ((rows.take i).map List.length).sum) }

/-- Modelled from the spec: `CRSSparsity::createDiagonal(n)`. -/
def createDiagonal (n : Nat) : CRSSparsity :=
  { nrow := n, ncol := n, col := List.range n, rowind := List.range (n + 1) }

end CRSSparsity

/-- Modelled from the spec: the table `f0x_is_zero` of `casadi_math`, true
for the tags whose function vanishes when its first argument is zero. -/
def std_f0x_is_zero : Operation → Bool
  | .MUL | .DIV | .NEG | .SQRT | .SIN | .TAN | .ASIN | .ATAN | .FLOOR | .CEIL | .ERF => true
  | _ => false

/-- Modelled from the spec: the table `fx0_is_zero` of `casadi_math`, true
for the tags whose function vanishes when its second argument is zero. -/
def std_fx0_is_zero : Operation → Bool
  | .MUL => true
  | _ => false

/-- Modelled from the spec: `isZero` of `mx_tools`: no structural nonzero, or
a constant leaf all of whose entries are zero. -/
def std_isZero (m : MX) : Bool :=
  m.size == 0 ||
    match m with
    | .constant _ _ data => data.all (fun v => v == 0)
    | _ => false

/-- Modelled from the spec: `isOne` of `mx_tools`: a dense constant leaf all
of whose entries are one. -/
def std_isOne : MX → Bool
  | .constant _ sp data => sp.numel == sp.size && data.all (fun v => v == 1)
  | _ => false

/-- Modelled from the spec: `isMinusOne` of `mx_tools`: a dense constant leaf
all of whose entries are minus one. -/
def std_isMinusOne : MX → Bool
  | .constant _ sp data => sp.numel == sp.size && data.all (fun v => v == -1)
  | _ => false

/-- Modelled from the spec: `isIdentity` of `mx_tools`: a constant leaf over
a diagonal pattern all of whose entries are one. -/
def std_isIdentity : MX → Bool
  | .constant _ sp data =>
      decide (sp = CRSSparsity.createDiagonal sp.nrow) && data.all (fun v => v == 1)
  | _ => false

/-- Modelled from the spec: `simplifyMapping` of `mx_tools`, the rewrite that
replaces a prospective node with an existing equivalent: a Mapping with a
single dependency of the same pattern that takes every nonzero from the same
position of the dependency is replaced by the dependency. -/
def std_simplifyMapping : MX → MX
  | .mapping a sp [d] nzmap depind =>
      if sp = d.sparsity ∧ nzmap = range sp.size then d
      else .mapping a sp [d] nzmap depind
  | m => m

/-- Modelled from the spec: the pattern of a `UnaryOp` node: that of the
child for a tag with `f(0) = 0`, dense otherwise. -/
def std_unarySparsity (op : Operation) (sp : CRSSparsity) : CRSSparsity :=
  if std_f0x_is_zero op then sp else CRSSparsity.dense sp.nrow sp.ncol

/-- Modelled from the spec: the pattern of a binary node.  A 1x1 operand is
broadcast against every entry of the other; a position is a structural
nonzero unless an operand in which the operation is zero-absorbing is
structurally zero there. -/
def std_binarySparsity (op : Operation) (a b : CRSSparsity) : CRSSparsity :=
  let ha := fun i j => if a.numel == 1 then a.has 0 0 else a.has i j
  let hb := fun i j => if b.numel == 1 then b.has 0 0 else b.has i j
  let p := fun i j => (!std_f0x_is_zero op || ha i j) && (!std_fx0_is_zero op || hb i j)
  if a.numel == 1 then CRSSparsity.ofPred b.nrow b.ncol p
  else CRSSparsity.ofPred a.nrow a.ncol p

namespace CRSSparsity

/-- The pattern of the given shape whose structural nonzeros are the listed
coordinates, which are sorted by row and column. -/
def ofCoords (nrow ncol : Nat) (l : List (Nat × Nat)) : CRSSparsity :=
  { nrow := nrow, ncol := ncol, col := l.map Prod.snd,
    rowind := (List.range (nrow + 1)).map (fun i => (l.filter (fun p => p.1 < i)).length) }

/-- An index counted from the end when negative, `none` when out of range. -/
def normIndex (n : Nat) (i : Int) : Option Nat :=
  if -(n : Int) ≤ i ∧ i < 0 then some (i + n).toNat
  else if 0 ≤ i ∧ i < n then some i.toNat
  else none

end CRSSparsity

/-- Modelled from the spec: `trans` of `mx_tools`: a Mapping over `x` with the
transposed pattern, every nonzero taken from the mirrored position. -/
def std_trans (x : MX) (s : Nat) : MX × Nat :=
  let sp := x.sparsity
  let l := (List.range sp.ncol).flatMap (fun j =>
    (List.range sp.nrow).filterMap (fun i => if sp.has i j then some (j, i) else none))
  ((Mapping s (CRSSparsity.ofCoords sp.ncol sp.nrow l)).addDependency x
    (l.map (fun p => sp.getNZ p.2 p.1)), s + 1)

/-- Modelled from the spec: `diag` of `mx_tools` on a square matrix: the
column vector of its diagonal entries, as a Mapping over `x`. -/
def std_diag (x : MX) (s : Nat) : MX × Nat :=
  let sp := x.sparsity
  let l := (List.range sp.nrow).filter (fun i => sp.has i i)
  ((Mapping s (CRSSparsity.ofCoords sp.nrow 1 (l.map (fun i => (i, 0))))).addDependency x
    (l.map (fun i => sp.getNZ i i)), s + 1)

/-- Modelled from the spec: `unite` of `mx_tools`: a Mapping over both
operands whose pattern is the union of theirs; a position present in both is
taken from the second. -/
def std_unite (a b : MX) (s : Nat) : Except Error (MX × Nat) :=
  if a.size1 != b.size1 || a.size2 != b.size2 then
    .error .dimensionMismatch
  else
    let l := (List.range a.size1).flatMap (fun i =>
      (List.range a.size2).filterMap (fun j =>
        if a.sparsity.has i j || b.sparsity.has i j then some (i, j) else none))
    let la := (List.range l.length).filter (fun k => a.sparsity.has (l.getD k (0, 0)).1
      (l.getD k (0, 0)).2)
    let lb := (List.range l.length).filter (fun k => b.sparsity.has (l.getD k (0, 0)).1
      (l.getD k (0, 0)).2)
    let ret := Mapping s (CRSSparsity.ofCoords a.size1 a.size2 l)
    let ret := ret.addDependency_nz a
      (la.map (fun k => a.sparsity.getNZ (l.getD k (0, 0)).1 (l.getD k (0, 0)).2))
      (la.map Int.ofNat)
    let ret := ret.addDependency_nz b
      (lb.map (fun k => b.sparsity.getNZ (l.getD k (0, 0)).1 (l.getD k (0, 0)).2))
      (lb.map Int.ofNat)
    .ok (ret, s + 1)

/-- Modelled from the spec: the pattern of a `Multiplication` node over `x`
and the transpose of `y`: position `(i, j)` is a nonzero when some `k` has
both `x(i,k)` and `yT(j,k)` structurally nonzero. -/
def std_multiplicationSparsity (a bT : CRSSparsity) : CRSSparsity :=
  CRSSparsity.ofPred a.nrow bT.nrow (fun i j =>
    (List.range a.ncol).any (fun k => a.has i k && bT.has j k))

/-- Modelled from the spec: `CRSSparsity::erase(rows, cols)`: the addressed
region is removed from the pattern and the surviving original nonzero
indices are listed; an index outside the matrix is an error. -/
def std_sparsityErase (sp : CRSSparsity) (ii jj : List Int) :
    Except Error (CRSSparsity × List Int) :=
  if (ii.all (fun i => (CRSSparsity.normIndex sp.nrow i).isSome) &&
      jj.all (fun j => (CRSSparsity.normIndex sp.ncol j).isSome)) then
    let rows := ii.filterMap (CRSSparsity.normIndex sp.nrow)
    let cols := jj.filterMap (CRSSparsity.normIndex sp.ncol)
    let kept := (List.range sp.coords.length).filter (fun k =>
      !(rows.contains (sp.coords.getD k (0, 0)).1 && cols.contains (sp.coords.getD k (0, 0)).2))
    .ok (CRSSparsity.ofCoords sp.nrow sp.ncol (kept.map (fun k => sp.coords.getD k (0, 0))),
      kept.map Int.ofNat)
  else
    .error .outOfBounds

/-- Modelled from the spec: `CRSSparsity::enlarge(rows, cols, rowOffsets,
colOffsets)`: row `i` and column `j` of the pattern are placed at row `ii[i]`
and column `jj[j]` of the larger shape; the offsets are increasing. -/
def std_sparsityEnlarge (sp : CRSSparsity) (nrow ncol : Nat) (ii jj : List Int) :
    Except Error CRSSparsity :=
  if ii.length = sp.nrow ∧ jj.length = sp.ncol ∧
      (ii.all (fun i => (CRSSparsity.normIndex nrow i).isSome) &&
        jj.all (fun j => (CRSSparsity.normIndex ncol j).isSome)) then
    .ok (CRSSparsity.ofCoords nrow ncol (sp.coords.map (fun p =>
      (((ii.getD p.1 0) % (nrow : Int)).toNat, ((jj.getD p.2 0) % (ncol : Int)).toNat))))
  else
    .error .outOfBounds

/-- One concrete choice of the collaborators, used to run the code on
explicit inputs. -/
def stdCtx : Ctx :=
  { f0x_is_zero := std_f0x_is_zero
    fx0_is_zero := std_fx0_is_zero
    isZero := std_isZero
    isOne := std_isOne
    isMinusOne := std_isMinusOne
    isIdentity := std_isIdentity
    simplifyMapping := std_simplifyMapping
    unarySparsity := std_unarySparsity
    binarySparsity := std_binarySparsity
    trans := std_trans
    diag := std_diag
    unite := std_unite
    multiplicationSparsity := std_multiplicationSparsity
    sparsityErase := std_sparsityErase
    sparsityEnlarge := std_sparsityEnlarge }

/-! ## Reading a Mapping node -/

namespace MX

/-- The Mapping entry of slot `i`: the node is a Mapping whose nonzero slot
`i` is taken from nonzero `j` of its dependency `d`. -/
def mapsFrom (m : MX) (i : Nat) (d : MX) (j : Int) : Prop :=
  match m with
  | mapping _ _ dep nzmap depind =>
      ∃ p : Nat, depind[i]? = some (p : Int) ∧ dep[p]? = some d ∧ nzmap[i]? = some j
  | _ => False

/-- Nonzero slot `i` of `m` is supplied by nonzero `j` of `d`: either through
a Mapping entry, or because `m` is `d` itself and `j` is `i`. -/
def suppliedBy (m : MX) (i : Nat) (d : MX) (j : Int) : Prop :=
  m.mapsFrom i d j ∨ (m = d ∧ j = (i : Int))

/-- Nonzero slot `i` of `m` takes its value from nonzero `k` of `e`, possibly
through several nodes: the reflexive and transitive closure of `suppliedBy`. -/
inductive Traces : MX → Nat → MX → Nat → Prop where
  | refl (m : MX) (i : Nat) : Traces m i m i
  | step {m d e : MX} {i j k : Nat} :
      m.suppliedBy i d (j : Int) → Traces d j e k → Traces m i e k

/-- The handle has a single element, and so has every node reached from it
through first dependencies of operation nodes. -/
def ScalarChain : MX → Prop
  | unaryOp _ sp _ x => sp.numel = 1 ∧ ScalarChain x
  | binaryOp _ sp _ x _ => sp.numel = 1 ∧ ScalarChain x
  | m => m.numel = 1

end MX

/-- What `mx.cpp` relies on when it hands a freshly built Mapping to
`simplifyMapping`: the handle it gets back has the same pattern, and every
slot is still supplied by the nonzero its Mapping entry named. -/
def Ctx.SimplifyFaithful (c : Ctx) : Prop :=
  ∀ m : MX, (c.simplifyMapping m).sparsity = m.sparsity ∧
    ∀ (i : Nat) (d : MX) (j : Int), m.mapsFrom i d j → (c.simplifyMapping m).suppliedBy i d j

/-! ## Explicit inputs -/

/-- A 2x2 symbolic leaf, `MX("x",2,2)`, allocated first. -/
def symX : MX := .symbolic 0 (CRSSparsity.dense 2 2) "x"

/-- The zero matrix `MX::zeros(2,2)` allocated at address 0. -/
def zerosA : MX := (MX.zeros 2 2 0).1

/-- The zero matrix `MX::zeros(2,2)` allocated at address 1. -/
def zerosB : MX := (MX.zeros 2 2 1).1

/-- The zero matrix `MX::zeros(3,3)` allocated at address 1. -/
def zeros33 : MX := (MX.zeros 3 3 1).1

/-- The negation `-x` of the symbolic leaf, allocated at address 1. -/
def negX : MX := (MX.neg stdCtx symX 1).1

/-- The node `MX::unary(NEG, -x)`, a negation of a negation, at address 2. -/
def negNegX : MX := (MX.unary stdCtx .NEG negX 2).1

/-- The 1x1 zero matrix `MX::zeros(1,1)` allocated at address 0. -/
def zeros11 : MX := (MX.zeros 1 1 0).1

/-- An empty symbolic leaf with no row and three columns, `MX("e",0,3)`. -/
def symEmpty : MX := .symbolic 1 (CRSSparsity.dense 0 3) "e"

/-- A 1x1 symbolic leaf, `MX("e",1,1)`, at address 1. -/
def symE : MX := .symbolic 1 (CRSSparsity.dense 1 1) "e"

/-- The constant scalar `MX(-1.0)` at address 0. -/
def minusOne11 : MX := .constant 0 (CRSSparsity.dense 1 1) [-1]

/-- The constant scalar `MX(1.0)` at address 1. -/
def one11 : MX := .constant 1 (CRSSparsity.dense 1 1) [1]

/-- The constant `MX::ones(2,2)` at address 0. -/
def onesA : MX := .constant 0 (CRSSparsity.dense 2 2) [1, 1, 1, 1]

/-- The constant `MX::ones(2,2)` at address 1. -/
def onesB : MX := .constant 1 (CRSSparsity.dense 2 2) [1, 1, 1, 1]

/-- The constant 2x2 matrix of numeric zeros, `MX(DMatrix(2,2,0))`, at address 1. -/
def constZero22 : MX := .constant 1 (CRSSparsity.dense 2 2) [0, 0, 0, 0]

/-- A 2x2 symbolic leaf, `MX("b",2,2)`, at address 5. -/
def symB : MX := .symbolic 5 (CRSSparsity.dense 2 2) "b"

/-- The negation `-b`, allocated at address 6. -/
def negB : MX := (MX.neg stdCtx symB 6).1

/-- The identity matrix `MX::eye(2)` at address 7. -/
def eye2 : MX := .constant 7 (CRSSparsity.createDiagonal 2) [1, 1]

/-- A 2x3 symbolic leaf, `MX("m",2,3)`, at address 0. -/
def symM : MX := .symbolic 0 (CRSSparsity.dense 2 3) "m"

/-- A 2x1 symbolic leaf, `MX("u",2,1)`, at address 0. -/
def symU : MX := .symbolic 0 (CRSSparsity.dense 2 1) "u"

/-- A 2x1 symbolic leaf, `MX("v",2,1)`, at address 1. -/
def symV : MX := .symbolic 1 (CRSSparsity.dense 2 1) "v"

/-- The 1x1 value `el[0]` read in the first pass of `u.setSub({1,0},{0},u)`:
nonzero 0 of the leaf `u`. -/
def selfRead0 : MX := .mapping 2 (CRSSparsity.dense 1 1) [symU] [0] [0]

/-- The target after the first pass: nonzero 1 is taken from `selfRead0`. -/
def selfPass1 : MX := .mapping 3 (CRSSparsity.dense 2 1) [symU, selfRead0] [0, 0] [0, 1]

/-- The 1x1 value `el[1]` read in the second pass: `el` is the target, so
this is nonzero 1 of the target after the first pass. -/
def selfRead1 : MX := .mapping 4 (CRSSparsity.dense 1 1) [selfPass1] [1] [0]

/-- The target after the second pass: nonzero 0 is taken from `selfRead1`. -/
def selfPass2 : MX :=
  .mapping 5 (CRSSparsity.dense 2 1) [selfPass1, selfRead1] [0, 1] [1, 0]

/-! # Theorems -/

/-! ## Stores into an index vector -/

theorem setAt_length (v : List Int) (i a : Int) : (setAt v i a).length = v.length := by
  unfold setAt
  split_ifs <;> simp

theorem setAt_getElem?_self (v : List Int) (i : Nat) (a : Int) (hi : i < v.length) :
    (setAt v (i : Int) a)[i]? = some a := by
  unfold setAt
  simp [hi]

theorem setAt_getElem?_ne (v : List Int) (i : Nat) (b a : Int) (h : b ≠ (i : Int)) :
    (setAt v b a)[i]? = v[i]? := by
  unfold setAt
  split_ifs with hb
  · apply List.getElem?_set_ne
    intro hEq
    apply h
    rw [← hEq]
    exact (Int.toNat_of_nonneg hb).symm
  · rfl

theorem assignNZ_cons (v : List Int) (b : Int) (nz : List Int) (f : Int → Int) :
    assignNZ v (b :: nz) ((b :: nz).map f) = assignNZ (setAt v b (f b)) nz (nz.map f) := by
  simp [assignNZ]

/-- After the loop `v[nz[k]] = f(nz[k])`, a slot listed in `nz` holds the
value stored for it and every other slot is unchanged. -/
theorem assignNZ_map_getElem? (nz : List Int) (f : Int → Int) (v : List Int) (i : Nat)
    (hi : i < v.length) :
    (assignNZ v nz (nz.map f))[i]? = if (i : Int) ∈ nz then some (f i) else v[i]? := by
  induction nz generalizing v with
  | nil => simp [assignNZ]
  | cons b nz ih =>
    rw [assignNZ_cons, ih (setAt v b (f b)) (by rw [setAt_length]; exact hi)]
    by_cases hmem : (i : Int) ∈ nz
    · simp [hmem]
    · by_cases hb : b = (i : Int)
      · subst hb
        simp [hmem, setAt_getElem?_self v i (f i) hi]
      · have hb' : ¬ ((i : Int) = b) := fun h => hb h.symm
        simp [hmem, hb', setAt_getElem?_ne v i b (f b) hb]

theorem assignNZ_replicate_getElem? (nz : List Int) (a : Int) (v : List Int) (i : Nat)
    (hi : i < v.length) :
    (assignNZ v nz (List.replicate nz.length a))[i]?
      = if (i : Int) ∈ nz then some a else v[i]? := by
  rw [← List.map_const' nz a]
  exact assignNZ_map_getElem? nz (fun _ => a) v i hi

theorem assignNZ_length (nz a v : List Int) : (assignNZ v nz a).length = v.length := by
  unfold assignNZ
  generalize nz.zip a = ps
  induction ps generalizing v with
  | nil => rfl
  | cons p ps ih => simp [List.foldl, ih, setAt_length]

theorem range_length (n : Nat) : (range n).length = n := by
  simp [range]

theorem mem_range (n i : Nat) : (i : Int) ∈ range n ↔ i < n := by
  simp [range]

/-- The concrete `simplifyMapping` keeps the pattern and the supplier of
every slot. -/
theorem std_simplifyFaithful : stdCtx.SimplifyFaithful := by
  intro m
  show (std_simplifyMapping m).sparsity = m.sparsity ∧
    ∀ (i : Nat) (d : MX) (j : Int), m.mapsFrom i d j → (std_simplifyMapping m).suppliedBy i d j
  have triv : ∀ m' : MX, std_simplifyMapping m' = m' →
      (std_simplifyMapping m').sparsity = m'.sparsity ∧
      ∀ (i : Nat) (d : MX) (j : Int), m'.mapsFrom i d j →
        (std_simplifyMapping m').suppliedBy i d j := by
    intro m' h
    rw [h]
    exact ⟨rfl, fun i d j hm => Or.inl hm⟩
  match m with
  | .mapping a sp [d0] nzmap depind =>
    by_cases hc : sp = d0.sparsity ∧ nzmap = range sp.size
    · have hs : std_simplifyMapping (.mapping a sp [d0] nzmap depind) = d0 := by
        simp [std_simplifyMapping, hc.1, hc.2]
      rw [hs]
      refine ⟨by rw [hc.1]; rfl, ?_⟩
      intro i d j hm
      obtain ⟨p, -, hp2, hp3⟩ := hm
      right
      have hp : p = 0 := by
        by_contra hne
        obtain ⟨q, rfl⟩ := Nat.exists_eq_succ_of_ne_zero hne
        simp at hp2
      subst hp
      simp only [List.getElem?_cons_zero, Option.some.injEq] at hp2
      refine ⟨hp2, ?_⟩
      rw [hc.2] at hp3
      simp only [range, List.getElem?_map] at hp3
      by_cases hi : i < sp.size
      · rw [List.getElem?_range hi] at hp3
        simpa using hp3.symm
      · rw [List.getElem?_eq_none (by simpa using hi)] at hp3
        simp at hp3
    · exact triv _ (by simp [std_simplifyMapping, hc])
  | .symbolic _ _ _ => exact triv _ rfl
  | .constant _ _ _ => exact triv _ rfl
  | .unaryOp _ _ _ _ => exact triv _ rfl
  | .binaryOp _ _ _ _ _ => exact triv _ rfl
  | .multiplication _ _ _ _ => exact triv _ rfl
  | .mapping _ _ [] _ _ => exact triv _ rfl
  | .mapping _ _ (_ :: _ :: _) _ _ => exact triv _ rfl

namespace MX

/-! ## Additive identity -/

/-- C1, counterexample.  `x + z` with `z` structurally zero does not always
return the node of `x`: for two distinct 2x2 zero matrices the sum is the
second operand, a different node; and for a 2x2 symbolic `x` and a 3x3 zero
no handle is returned at all, the call fails with a dimension mismatch. -/
theorem add_zero_counterexample :
    stdCtx.isZero zerosB = true ∧
    add stdCtx zerosA zerosB 2 = .ok (zerosB, 2) ∧ zerosB.addr ≠ zerosA.addr ∧
    stdCtx.isZero zeros33 = true ∧
    add stdCtx symX zeros33 2 = .error .dimensionMismatch := by
  refine ⟨rfl, ?_, by decide, rfl, ?_⟩
  · rw [add]; rfl
  · rw [add]; rfl

/-- C1, amended.  For every handle `x` and every structurally-zero `z` whose
shape equals that of `x` or which is 1x1: `z + x` returns `x` itself; `x + z`
returns `x` itself unless `x` is also structurally zero (with equal shapes or
`x` 1x1), in which case it returns `z` itself.  The allocator state is
returned unchanged in each case. -/
theorem add_zero (c : Ctx) (x z : MX) (s : Nat) (hz : c.isZero z = true)
    (hshape : (x.size1 = z.size1 ∧ x.size2 = z.size2) ∨ z.numel = 1) :
    add c z x s = .ok (x, s) ∧
    (¬ (((x.size1 = z.size1 ∧ x.size2 = z.size2) ∨ x.numel = 1) ∧ c.isZero x = true) →
      add c x z s = .ok (x, s)) ∧
    ((((x.size1 = z.size1 ∧ x.size2 = z.size2) ∨ x.numel = 1) ∧ c.isZero x = true) →
      add c x z s = .ok (z, s)) := by
  refine ⟨?_, ?_, ?_⟩
  · rw [add]
    have h : (((z.size1 == x.size1 && z.size2 == x.size2) || z.numel == 1) && c.isZero z)
        = true := by
      rcases hshape with ⟨h1, h2⟩ | h1
      · simp [h1, h2, hz]
      · simp [h1, hz]
    rw [if_pos h]
  · intro hx
    rw [add]
    have h1 : ¬ ((((x.size1 == z.size1 && x.size2 == z.size2) || x.numel == 1) && c.isZero x)
        = true) := by
      intro h
      apply hx
      simpa using h
    have h2 : (((x.size1 == z.size1 && x.size2 == z.size2) || z.numel == 1) && c.isZero z)
        = true := by
      rcases hshape with ⟨h1, h2⟩ | h1
      · simp [h1, h2, hz]
      · simp [h1, hz]
    rw [if_neg h1, if_pos h2]
  · intro hx
    rw [add]
    have h1 : (((x.size1 == z.size1 && x.size2 == z.size2) || x.numel == 1) && c.isZero x)
        = true := by
      simpa using hx
    rw [if_pos h1]

/-- C1, witness: a 2x2 symbolic leaf and a 2x2 zero matrix. -/
theorem add_zero_witness :
    add stdCtx zerosB symX 2 = .ok (symX, 2) ∧
    (¬ (((symX.size1 = zerosB.size1 ∧ symX.size2 = zerosB.size2) ∨ symX.numel = 1) ∧
        stdCtx.isZero symX = true) →
      add stdCtx symX zerosB 2 = .ok (symX, 2)) ∧
    ((((symX.size1 = zerosB.size1 ∧ symX.size2 = zerosB.size2) ∨ symX.numel = 1) ∧
        stdCtx.isZero symX = true) →
      add stdCtx symX zerosB 2 = .ok (zerosB, 2)) :=
  add_zero stdCtx symX zerosB 2 rfl (Or.inl ⟨rfl, rfl⟩)

/-! ## Self-cancellation -/

/-- C2, counterexample.  The negation of a negation built by
`MX::unary(NEG, -x)` is a handle `n` for which `n - n` is not a zero matrix:
the negation-folding branches run before the identity test and end in a
freshly allocated `SUB` node over `n` and `x`, with four structural
nonzeros. -/
theorem sub_self_counterexample :
    negX = .unaryOp 1 (CRSSparsity.dense 2 2) .NEG symX ∧
    negNegX = .unaryOp 2 (CRSSparsity.dense 2 2) .NEG negX ∧
    sub stdCtx negNegX negNegX 3
      = .ok (.binaryOp 3 (CRSSparsity.dense 2 2) .SUB negNegX symX, 4) ∧
    (MX.binaryOp 3 (CRSSparsity.dense 2 2) .SUB negNegX symX).size = 4 := by
  refine ⟨rfl, rfl, ?_, rfl⟩
  rw [sub, dif_pos (by rfl), if_neg (by decide), if_neg (by decide)]
  rw [add, dif_pos (by rfl), if_neg (by decide), if_neg (by decide)]
  rw [sub]
  rfl

/-- C2, amended.  With `NEG` zero-preserving in the operation table: for
every handle `x` that is not a `NEG` node, and for every `NEG` node `x` whose
dependency is not itself a `NEG` node, has the shape of `x`, and where neither
of the two is structurally zero, `x - x` returns a freshly allocated matrix
without structural nonzeros that has the row and column counts of `x`. -/
theorem sub_self (c : Ctx) (x : MX) (s : Nat) (htab : c.f0x_is_zero .NEG = true)
    (hx : x.isOperation .NEG = false ∨
      (x.dep0.isOperation .NEG = false ∧ x.dep0.size1 = x.size1 ∧ x.dep0.size2 = x.size2 ∧
        c.isZero x = false ∧ c.isZero x.dep0 = false)) :
    sub c x x s = .ok (zeros x.size1 x.size2 s) ∧
    (zeros x.size1 x.size2 s).1.size1 = x.size1 ∧
    (zeros x.size1 x.size2 s).1.size2 = x.size2 ∧
    (zeros x.size1 x.size2 s).1.size = 0 := by
  refine ⟨?_, rfl, rfl, rfl⟩
  rcases hx with hneg | ⟨hd, h1, h2, hzx, hzd⟩
  · rw [sub]
    by_cases hz : c.isZero x = true
    · simp [hz, neg, hneg, unary, htab]
    · simp [hz, hneg]
  · by_cases hneg : x.isOperation .NEG = true
    · rw [sub]
      simp only [hzx, hneg, Bool.and_false, Bool.false_eq_true, if_false, dite_true]
      rw [add]
      simp only [hzx, hzd, hd, hneg, Bool.and_false, Bool.false_eq_true, if_false,
        dite_true, dite_false]
      rw [sub]
      simp [hzd, hd, h1, h2]
    · rw [sub]
      simp [hzx, hneg]

/-- C2, witness: the symbolic leaf `x` and its negation `-x`. -/
theorem sub_self_witness :
    (sub stdCtx negX negX 2 = .ok (zeros negX.size1 negX.size2 2) ∧
      (zeros negX.size1 negX.size2 2).1.size1 = negX.size1 ∧
      (zeros negX.size1 negX.size2 2).1.size2 = negX.size2 ∧
      (zeros negX.size1 negX.size2 2).1.size = 0) ∧
    negX.isOperation .NEG = true :=
  ⟨sub_self stdCtx negX 2 rfl (Or.inr ⟨rfl, rfl, rfl, rfl, rfl⟩), rfl⟩

/-! ## `MX::binary` -/

/-- C3.  `MX::binary(op, x, y)` raises the dimension-mismatch error if and
only if the two shapes differ and neither operand has exactly one element; it
raises no other error; in particular it fails for a 2x3 and a 3x2 operand. -/
theorem binary_dimensionMismatch_iff (c : Ctx) (op : Operation) (x y : MX) (s : Nat) :
    (binary c op x y s = .error .dimensionMismatch ↔
      (¬ (x.size1 = y.size1 ∧ x.size2 = y.size2) ∧ x.numel ≠ 1 ∧ y.numel ≠ 1)) ∧
    (∀ e, binary c op x y s = .error e → e = .dimensionMismatch) ∧
    (x.size1 = 2 ∧ x.size2 = 3 ∧ y.size1 = 3 ∧ y.size2 = 2 →
      binary c op x y s = .error .dimensionMismatch) := by
  have key : binary c op x y s = .error .dimensionMismatch ↔
      (¬ (x.size1 = y.size1 ∧ x.size2 = y.size2) ∧ x.numel ≠ 1 ∧ y.numel ≠ 1) := by
    unfold binary
    by_cases h : (x.numel == 1 || y.numel == 1 ||
        (x.size1 == y.size1 && x.size2 == y.size2)) = true
    · have h' : ¬ (¬ (x.size1 = y.size1 ∧ x.size2 = y.size2) ∧ x.numel ≠ 1 ∧ y.numel ≠ 1) := by
        simp only [Bool.or_eq_true, Bool.and_eq_true, beq_iff_eq] at h
        tauto
      simp only [h, Bool.not_true, Bool.false_eq_true, if_false]
      constructor
      · intro hb
        split_ifs at hb
      · intro hb
        exact absurd hb h'
    · have h' : ¬ (x.size1 = y.size1 ∧ x.size2 = y.size2) ∧ x.numel ≠ 1 ∧ y.numel ≠ 1 := by
        simp only [Bool.or_eq_true, Bool.and_eq_true, beq_iff_eq] at h
        tauto
      simp [h, h']
  refine ⟨key, ?_, ?_⟩
  · intro e he
    unfold binary at he
    split_ifs at he
    · cases he; rfl
  · rintro ⟨h1, h2, h3, h4⟩
    rw [key]
    have hx : x.numel = 6 := by
      simp only [numel, CRSSparsity.numel, size1, size2, CRSSparsity.size1,
        CRSSparsity.size2] at *
      rw [h1, h2]
    have hy : y.numel = 6 := by
      simp only [numel, CRSSparsity.numel, size1, size2, CRSSparsity.size1,
        CRSSparsity.size2] at *
      rw [h3, h4]
    refine ⟨?_, by omega, by omega⟩
    rintro ⟨h, -⟩
    omega

/-- C3, witness: a 2x3 and a 3x2 symbolic leaf under the tag `ADD`. -/
theorem binary_dimensionMismatch_witness :
    binary stdCtx .ADD (.symbolic 0 (CRSSparsity.dense 2 3) "a")
      (.symbolic 1 (CRSSparsity.dense 3 2) "b") 2 = .error .dimensionMismatch :=
  (binary_dimensionMismatch_iff stdCtx .ADD (.symbolic 0 (CRSSparsity.dense 2 3) "a")
    (.symbolic 1 (CRSSparsity.dense 3 2) "b") 2).2.2 ⟨rfl, rfl, rfl, rfl⟩

/-- C4, evaluation at the failing input.  For the structurally-zero 1x1
operand `zeros(1,1)` and an empty 0x3 operand under the tag `MUL`, which is
zero-absorbing on the left, the shape test of `MX::binary` passes and the
short-circuit returns `zeros(max(1,0), max(1,3))`, a 1x3 matrix, although
the non-scalar operand has no row. -/
theorem binary_zero_shortcut_empty_operand :
    stdCtx.f0x_is_zero .MUL = true ∧ stdCtx.isZero zeros11 = true ∧
    zeros11.size1 = 1 ∧ zeros11.size2 = 1 ∧ symEmpty.size1 = 0 ∧ symEmpty.size2 = 3 ∧
    binary stdCtx .MUL zeros11 symEmpty 2 = .ok (zeros 1 3 2) ∧
    (zeros 1 3 2).1.size1 = 1 ∧ (zeros 1 3 2).1.size1 ≠ symEmpty.size1 := by
  refine ⟨rfl, rfl, rfl, rfl, rfl, rfl, rfl, rfl, by decide⟩

/-! ## Access by nonzero index -/

/-- C5, counterexample.  On the 2x2 symbolic leaf, which has four nonzeros,
`getNZ(-4)` does not fail although `|-4| >= 4`: the index is shifted to `0`
and the first nonzero is returned. -/
theorem getNZ_counterexample :
    symX.size = 4 ∧
    getNZ symX (-4) 1 = .ok (.mapping 1 (CRSSparsity.dense 1 1) [symX] [0] [0], 2) := by
  exact ⟨rfl, rfl⟩

/-- C5, amended.  For every matrix with `n` nonzeros and every integer
`k >= -n`: `getNZ(k)` fails, with the out-of-bounds error, if and only if
`k >= n`; for `-n <= k < n` it returns a handle. -/
theorem getNZ_outOfBounds_iff (this : MX) (k : Int) (s : Nat)
    (hk : -(this.size : Int) ≤ k) :
    (getNZ this k s = .error .outOfBounds ↔ (this.size : Int) ≤ k) ∧
    (k < (this.size : Int) → ∃ r, getNZ this k s = .ok r) ∧
    (∀ e, getNZ this k s = .error e → e = .outOfBounds) := by
  unfold getNZ
  by_cases hneg : k < 0
  · have h1 : ¬ (k + (this.size : Int) ≥ this.size) := by omega
    have h2 : ¬ ((this.size : Int) ≤ k) := by omega
    simp only [hneg, if_true, h1, if_false, h2]
    refine ⟨by simp, fun _ => ⟨_, rfl⟩, ?_⟩
    intro e he
    cases he
  · by_cases hge : k ≥ (this.size : Int)
    · simp only [hneg, if_false, hge, if_true]
      refine ⟨by simp [ge_iff_le.mp hge], fun h => absurd h (by omega), ?_⟩
      intro e he
      cases he
      rfl
    · simp only [hneg, if_false, hge]
      refine ⟨by simp, fun _ => ⟨_, rfl⟩, ?_⟩
      intro e he
      cases he

/-- C5, witness: the index `4` on the 2x2 symbolic leaf. -/
theorem getNZ_outOfBounds_witness :
    (getNZ symX 4 1 = .error .outOfBounds ↔ (symX.size : Int) ≤ 4) ∧
    ((4 : Int) < (symX.size : Int) → ∃ r, getNZ symX 4 1 = .ok r) ∧
    (∀ e, getNZ symX 4 1 = .error e → e = .outOfBounds) :=
  getNZ_outOfBounds_iff symX 4 1 (by decide)

/-- C6.  For every matrix with `n` nonzeros and every `j` with `1 <= j <= n`,
`getNZ(-j)` returns what `getNZ(n - j)` returns: a freshly allocated 1x1
dense Mapping whose only dependency is the matrix and whose single nonzero
takes source nonzero `n - j`. -/
theorem getNZ_neg (this : MX) (j : Nat) (s : Nat) (h1 : 1 ≤ j) (h2 : j ≤ this.size) :
    getNZ this (-(j : Int)) s = getNZ this ((this.size : Int) - j) s ∧
    getNZ this (-(j : Int)) s
      = .ok (.mapping s (CRSSparsity.dense 1 1) [this] [(this.size : Int) - j] [0], s + 1) ∧
    (CRSSparsity.dense 1 1).size1 = 1 ∧ (CRSSparsity.dense 1 1).size2 = 1 ∧
    (CRSSparsity.dense 1 1).size = 1 := by
  have ha : -(j : Int) < 0 := by omega
  have hb : ¬ ((this.size : Int) - j < 0) := by omega
  have hc : ¬ (-(j : Int) + (this.size : Int) ≥ this.size) := by omega
  have hd : ¬ ((this.size : Int) - j ≥ this.size) := by omega
  have he : -(j : Int) + (this.size : Int) = (this.size : Int) - j := by omega
  have key : ∀ k : Int, getNZ_vector this [k] s
      = (.mapping s (CRSSparsity.dense 1 1) [this] [k] [0], s + 1) := by
    intro k
    rfl
  refine ⟨?_, ?_, rfl, rfl, rfl⟩
  · unfold getNZ
    simp only [ha, if_true, hb, if_false, hc, hd, he]
  · unfold getNZ
    simp only [ha, if_true, hc, if_false, he, key, hd]

/-- C6, witness: `getNZ(-1)` and `getNZ(3)` on the 2x2 symbolic leaf. -/
theorem getNZ_neg_witness :
    getNZ symX (-((1 : Nat) : Int)) 1 = getNZ symX ((symX.size : Int) - (1 : Nat)) 1 ∧
    getNZ symX (-((1 : Nat) : Int)) 1
      = .ok (.mapping 1 (CRSSparsity.dense 1 1) [symX] [(symX.size : Int) - (1 : Nat)] [0],
          1 + 1) ∧
    (CRSSparsity.dense 1 1).size1 = 1 ∧ (CRSSparsity.dense 1 1).size2 = 1 ∧
    (CRSSparsity.dense 1 1).size = 1 :=
  getNZ_neg symX 1 1 (by decide) (by decide)

/-! ## Assignment by nonzero index -/

/-- The Mapping that `setNZ(k, el)` hands to `simplifyMapping` when `el` has a
single nonzero. -/
theorem setNZ_vector_scalar_eq (c : Ctx) (this el : MX) (k : List Int) (s : Nat)
    (hel : el.size = 1) :
    setNZ_vector c this k el s
      = (.ok (), c.simplifyMapping
          (.mapping s this.sparsity [this, el]
            (assignNZ (assignNZ (List.replicate this.size (-1)) (range (range this.size).length)
              (range this.size)) k (List.replicate k.length 0))
            (assignNZ (assignNZ (List.replicate this.size (-1)) (range (range this.size).length)
              (List.replicate (range (range this.size).length).length (Int.ofNat 0)))
              k (List.replicate k.length (Int.ofNat 1)))), s + 1) := by
  have hel' : el.sparsity.size = 1 := hel
  unfold setNZ_vector
  simp [hel', Mapping, addDependency, addDependency_nz, size]

/-- C7.  For every target, every list `k` of in-range nonzero indices and
every value `el` with exactly one nonzero, `setNZ(k, el)` succeeds and leaves
in the target a matrix with the pattern the target had, in which every slot
listed in `k` is supplied by nonzero `0` of `el` and every other slot is
supplied by the nonzero of the same index of the original target.  The handle
is the one `simplifyMapping` returns, which is assumed to keep the pattern
and the supplier of every slot. -/
theorem setNZ_scalar_broadcast (c : Ctx) (hc : c.SimplifyFaithful) (this el : MX)
    (k : List Int) (s : Nat) (_hk : ∀ a ∈ k, 0 ≤ a ∧ a < (this.size : Int))
    (hel : el.size = 1) :
    ∃ r : MX, setNZ_vector c this k el s = (.ok (), r, s + 1) ∧
      r.sparsity = this.sparsity ∧
      ∀ i : Nat, i < this.size →
        ((i : Int) ∈ k → r.suppliedBy i el 0) ∧
        ((i : Int) ∉ k → r.suppliedBy i this (i : Int)) := by
  rw [setNZ_vector_scalar_eq c this el k s hel]
  refine ⟨_, rfl, (hc _).1, ?_⟩
  intro i hi
  have hlen1 : i < (assignNZ (List.replicate this.size (-1)) (range (range this.size).length)
      (range this.size)).length := by
    rw [assignNZ_length, List.length_replicate]; exact hi
  have hlen2 : i < (assignNZ (List.replicate this.size (-1)) (range (range this.size).length)
      (List.replicate (range (range this.size).length).length (Int.ofNat 0))).length := by
    rw [assignNZ_length, List.length_replicate]; exact hi
  have hlen0 : i < (List.replicate this.size (-1 : Int)).length := by
    rw [List.length_replicate]; exact hi
  have hmemr : (i : Int) ∈ range (range this.size).length := by
    rw [range_length, mem_range]; exact hi
  constructor
  · intro hmem
    apply (hc _).2
    refine ⟨1, ?_, rfl, ?_⟩
    · rw [assignNZ_replicate_getElem? k _ _ i hlen2, if_pos hmem]
      rfl
    · rw [assignNZ_replicate_getElem? k _ _ i hlen1, if_pos hmem]
  · intro hmem
    apply (hc _).2
    refine ⟨0, ?_, rfl, ?_⟩
    · rw [assignNZ_replicate_getElem? k _ _ i hlen2, if_neg hmem,
        assignNZ_replicate_getElem? _ _ _ i hlen0, if_pos hmemr]
      rfl
    · rw [assignNZ_replicate_getElem? k _ _ i hlen1, if_neg hmem]
      have hr := assignNZ_map_getElem? (range this.size) (fun a => a)
        (List.replicate this.size (-1)) i hlen0
      rw [List.map_id', if_pos ((mem_range _ _).2 hi)] at hr
      rw [range_length, hr]

/-- C7, witness: the scalar leaf `e` is stored into the nonzeros `0` and `3`
of the 2x2 symbolic leaf. -/
theorem setNZ_scalar_broadcast_witness :
    ∃ r : MX, setNZ_vector stdCtx symX [0, 3] symE 2 = (.ok (), r, 2 + 1) ∧
      r.sparsity = symX.sparsity ∧
      ∀ i : Nat, i < symX.size →
        ((i : Int) ∈ [(0 : Int), 3] → r.suppliedBy i symE 0) ∧
        ((i : Int) ∉ [(0 : Int), 3] → r.suppliedBy i symX (i : Int)) :=
  setNZ_scalar_broadcast stdCtx std_simplifyFaithful symX symE [0, 3] 2 (by decide) rfl

/-- C8.  `setNZ(k, el)` fails if and only if the number of nonzeros of `el`
differs from the length of `k` and is not one; when it fails, the error is
the length mismatch, the target references the node it referenced before and
nothing has been allocated. -/
theorem setNZ_fails_iff (c : Ctx) (this el : MX) (k : List Int) (s : Nat) :
    ((∃ e, (setNZ_vector c this k el s).1 = .error e) ↔
      (el.size ≠ k.length ∧ el.size ≠ 1)) ∧
    (∀ e, (setNZ_vector c this k el s).1 = .error e →
      e = .lengthMismatch ∧ (setNZ_vector c this k el s).2 = (this, s)) := by
  unfold setNZ_vector
  by_cases h : (k.length != el.size && el.size != 1) = true
  · have h' : el.size ≠ k.length ∧ el.size ≠ 1 := by
      simp only [Bool.and_eq_true, bne_iff_ne, ne_eq] at h
      exact ⟨fun hh => h.1 hh.symm, h.2⟩
    rw [if_pos h]
    refine ⟨⟨fun _ => h', fun _ => ⟨_, rfl⟩⟩, ?_⟩
    intro e he
    cases he
    exact ⟨rfl, rfl⟩
  · have h' : ¬ (el.size ≠ k.length ∧ el.size ≠ 1) := by
      simp only [Bool.and_eq_true, bne_iff_ne, ne_eq] at h
      intro hh
      exact h ⟨fun h1 => hh.1 h1.symm, hh.2⟩
    rw [if_neg h]
    refine ⟨⟨?_, fun hh => absurd hh h'⟩, ?_⟩
    · rintro ⟨e, he⟩
      cases he
    · intro e he
      cases he

/-- C8, witness: a 2x2 value (four nonzeros) cannot be stored into two
nonzeros; the target is left as it was. -/
theorem setNZ_fails_witness :
    (setNZ_vector stdCtx symX [0, 3] onesB 2).1 = .error .lengthMismatch ∧
    (.lengthMismatch = Error.lengthMismatch ∧
      (setNZ_vector stdCtx symX [0, 3] onesB 2).2 = (symX, 2)) :=
  ⟨rfl, (setNZ_fails_iff stdCtx symX onesB [0, 3] 2).2 .lengthMismatch rfl⟩

/-! ## Elementwise product -/

/-- C9, evaluation at the failing input.  `MUL` is zero-absorbing in both
operands and `NEG` zero-preserving in the tables of `stdCtx`.  For the empty
0x3 leaf `x` and the structurally-zero 1x1 matrix `y`, both `x * y` and
`y * x` reach the short-circuit of `MX::binary` and return
`zeros(max(0,1), max(3,1))`, a 1x3 matrix, not a matrix of the shape 0x3 of
the non-scalar operand.  On the 2x2 scenario the product of the symbolic leaf
with a constant zero is a freshly allocated 2x2 zero node and the sum is the
leaf itself. -/
theorem mul_zero_empty_operand :
    stdCtx.f0x_is_zero .MUL = true ∧ stdCtx.fx0_is_zero .MUL = true ∧
    stdCtx.f0x_is_zero .NEG = true ∧ stdCtx.isZero zeros11 = true ∧
    zeros11.numel = 1 ∧ symEmpty.size1 = 0 ∧ symEmpty.size2 = 3 ∧
    mul stdCtx symEmpty zeros11 2 = .ok (zeros 1 3 2) ∧
    mul stdCtx zeros11 symEmpty 2 = .ok (zeros 1 3 2) ∧
    (zeros 1 3 2).1.size1 ≠ symEmpty.size1 ∧
    stdCtx.isZero constZero22 = true ∧
    mul stdCtx symX constZero22 2 = .ok (zeros 2 2 2) ∧
    (zeros 2 2 2).1.addr ≠ symX.addr ∧
    add stdCtx symX constZero22 2 = .ok (symX, 2) := by
  refine ⟨rfl, rfl, rfl, rfl, rfl, rfl, rfl, rfl, rfl, by decide, rfl, rfl, by decide, ?_⟩
  rw [add]; rfl

/-- C10, counterexample.  With the constant scalar `-1` as `x` and the
constant scalar `1` as `u`, `x * u` is not `x`: the rule for a minus-one left
operand comes first and allocates a `NEG` node over `u`.  With two distinct
2x2 constants of ones, `x * u` returns `u`, a different node. -/
theorem mul_one_counterexample :
    stdCtx.isOne one11 = true ∧
    mul stdCtx minusOne11 one11 2 = .ok (.unaryOp 2 (CRSSparsity.dense 1 1) .NEG one11, 3) ∧
    stdCtx.isOne onesB = true ∧
    mul stdCtx onesA onesB 2 = .ok (onesB, 2) ∧ onesB.addr ≠ onesA.addr := by
  refine ⟨rfl, rfl, rfl, rfl, by decide⟩

/-- C10, amended.  For every handle `x` and every structurally-one `u` whose
shape equals that of `x` or which is 1x1: `u * x` returns `x` itself, and
`x * u` returns `x` itself unless `x` is structurally one or minus one (with
equal shapes or `x` 1x1).  The allocator state is returned unchanged. -/
theorem mul_one (c : Ctx) (x u : MX) (s : Nat) (hu : c.isOne u = true)
    (hshape : (x.size1 = u.size1 ∧ x.size2 = u.size2) ∨ u.numel = 1) :
    mul c u x s = .ok (x, s) ∧
    (¬ (((x.size1 = u.size1 ∧ x.size2 = u.size2) ∨ x.numel = 1) ∧
        (c.isOne x = true ∨ c.isMinusOne x = true)) →
      mul c x u s = .ok (x, s)) := by
  constructor
  · unfold mul
    have h : (((u.size1 == x.size1 && u.size2 == x.size2) || u.numel == 1) && c.isOne u)
        = true := by
      rcases hshape with ⟨h1, h2⟩ | h1
      · simp [h1, h2, hu]
      · simp [h1, hu]
    rw [if_pos h]
  · intro hx
    unfold mul
    have h1 : ¬ ((((x.size1 == u.size1 && x.size2 == u.size2) || x.numel == 1) && c.isOne x)
        = true) := by
      intro h
      apply hx
      simp only [Bool.and_eq_true, Bool.or_eq_true, beq_iff_eq] at h
      exact ⟨h.1, Or.inl h.2⟩
    have h2 : ¬ ((((x.size1 == u.size1 && x.size2 == u.size2) || x.numel == 1) &&
        c.isMinusOne x) = true) := by
      intro h
      apply hx
      simp only [Bool.and_eq_true, Bool.or_eq_true, beq_iff_eq] at h
      exact ⟨h.1, Or.inr h.2⟩
    have h3 : (((x.size1 == u.size1 && x.size2 == u.size2) || u.numel == 1) && c.isOne u)
        = true := by
      rcases hshape with ⟨h1, h2⟩ | h1
      · simp [h1, h2, hu]
      · simp [h1, hu]
    rw [if_neg h1, if_neg h2, if_pos h3]

/-- C10, witness: the 2x2 symbolic leaf and a 2x2 constant of ones. -/
theorem mul_one_witness :
    mul stdCtx onesB symX 2 = .ok (symX, 2) ∧
    (¬ (((symX.size1 = onesB.size1 ∧ symX.size2 = onesB.size2) ∨ symX.numel = 1) ∧
        (stdCtx.isOne symX = true ∨ stdCtx.isMinusOne symX = true)) →
      mul stdCtx symX onesB 2 = .ok (symX, 2)) :=
  mul_one stdCtx symX onesB 2 rfl (Or.inl ⟨rfl, rfl⟩)

/-! ## Negation folding -/

/-- C11, counterexample.  For the scalar leaf `e` and the 2x2 zero matrix
`z`, the negation `-z` is a new 2x2 zero matrix and not a `NEG` node, and
`e + (-z)` builds an `ADD` node while `e - z` builds a `SUB` node.  For the
leaf `x` and the `NEG` node `-b`, `(-x) + (-b)` builds the node `(-x) - b`
while `(-b) - x` builds a `SUB` node over `-b` and `x`. -/
theorem neg_folding_counterexample :
    neg stdCtx zerosA 2 = (zeros 2 2 2) ∧
    add stdCtx symE (neg stdCtx zerosA 2).1 3
      = .ok (.binaryOp 3 (CRSSparsity.dense 2 2) .ADD symE (zeros 2 2 2).1, 4) ∧
    sub stdCtx symE zerosA 3
      = .ok (.binaryOp 3 (CRSSparsity.dense 2 2) .SUB symE zerosA, 4) ∧
    add stdCtx negX negB 7
      = .ok (.binaryOp 7 (CRSSparsity.dense 2 2) .SUB negX symB, 8) ∧
    sub stdCtx negB symX 7
      = .ok (.binaryOp 7 (CRSSparsity.dense 2 2) .SUB negB symX, 8) := by
  refine ⟨rfl, ?_, ?_, ?_, ?_⟩
  · rw [add]; rfl
  · rw [sub]; rfl
  · rw [add, dif_pos (by rfl), if_neg (by decide), if_neg (by decide)]
    rw [sub]; rfl
  · rw [sub]; rfl

/-- C11, amended.  Negation folding holds when no zero rule comes first: for
all handles `x`, `y` such that neither `x`, nor `y`, nor `-y` is structurally
zero, `x + (-y)` returns exactly what `x - y` returns and `x - (-y)` returns
exactly what `x + y` returns (the same handle and allocator state, or the
same failure); and when moreover neither `x` nor `y` is a `NEG` node,
`(-y) + x` returns exactly what `x - y` returns. -/
theorem neg_folding (c : Ctx) (x y : MX) (s t : Nat)
    (hx : c.isZero x = false) (hy : c.isZero y = false)
    (hny : c.isZero (neg c y s).1 = false) :
    add c x (neg c y s).1 t = sub c x y t ∧
    sub c x (neg c y s).1 t = add c x y t ∧
    (x.isOperation .NEG = false → y.isOperation .NEG = false →
      add c (neg c y s).1 x t = sub c x y t) := by
  by_cases hneg : y.isOperation .NEG = true
  · have hn : (neg c y s).1 = y.dep0 := by simp [neg, hneg]
    rw [hn] at hny ⊢
    refine ⟨?_, ?_, ?_⟩
    · conv_rhs => rw [sub]
      simp [hx, hy, hneg]
    · conv_rhs => rw [add]
      simp [hx, hy, hneg]
    · intro _ h2
      rw [h2] at hneg
      exact absurd hneg (by simp)
  · have hneg' : y.isOperation .NEG = false := by simpa using hneg
    have hn : (neg c y s).1 = .unaryOp s (c.unarySparsity .NEG y.sparsity) .NEG y := by
      simp [neg, hneg', unary, hy]
    rw [hn] at hny ⊢
    have hop : (MX.unaryOp s (c.unarySparsity .NEG y.sparsity) .NEG y).isOperation .NEG
        = true := by simp [isOperation]
    have hd : (MX.unaryOp s (c.unarySparsity .NEG y.sparsity) .NEG y).dep0 = y := rfl
    refine ⟨?_, ?_, ?_⟩
    · rw [add]
      simp [hx, hny, hop, hd]
    · conv_lhs => rw [sub]
      simp [hx, hny, hop, hd]
    · intro h1 _
      rw [add]
      simp [hx, hny, hop, hd, h1]

/-- C11, witness: the 2x2 leaves `x` and `b`. -/
theorem neg_folding_witness :
    add stdCtx symX (neg stdCtx symB 6).1 7 = sub stdCtx symX symB 7 ∧
    sub stdCtx symX (neg stdCtx symB 6).1 7 = add stdCtx symX symB 7 ∧
    (symX.isOperation .NEG = false → symB.isOperation .NEG = false →
      add stdCtx (neg stdCtx symB 6).1 symX 7 = sub stdCtx symX symB 7) :=
  neg_folding stdCtx symX symB 6 7 rfl rfl rfl

/-! ## Unary minus -/

/-- C19.  For every handle `x` that is neither structurally zero nor a `NEG`
node, `-x` allocates one `NEG` node and `-(-x)` returns `x` itself without
any further allocation; for every `NEG` node `n`, `-n` returns the first
dependency of `n` and the allocator state unchanged. -/
theorem neg_involution (c : Ctx) (x : MX) (s : Nat) :
    (x.isOperation .NEG = false → c.isZero x = false →
      (neg c x s).2 = s + 1 ∧ neg c (neg c x s).1 (neg c x s).2 = (x, s + 1)) ∧
    (x.isOperation .NEG = true → neg c x s = (x.dep0, s)) := by
  constructor
  · intro h1 h2
    have hn : neg c x s = (.unaryOp s (c.unarySparsity .NEG x.sparsity) .NEG x, s + 1) := by
      simp [neg, h1, unary, h2]
    rw [hn]
    refine ⟨rfl, ?_⟩
    simp [neg, isOperation, dep0]
  · intro h
    simp [neg, h]

/-- C19, witness: the 2x2 symbolic leaf and its negation. -/
theorem neg_involution_witness :
    ((neg stdCtx symX 1).2 = 1 + 1 ∧
      neg stdCtx (neg stdCtx symX 1).1 (neg stdCtx symX 1).2 = (symX, 1 + 1)) ∧
    neg stdCtx negX 2 = (negX.dep0, 2) :=
  ⟨(neg_involution stdCtx symX 1).1 rfl rfl, (neg_involution stdCtx negX 2).2 rfl⟩

/-! ## Matrix product -/

/-- C12.  If `x` is an identity matrix, `prod(x, y)` returns `y` itself; if
`y` is an identity matrix and `x` is not, it returns `x` itself; in both
cases the allocator state is returned unchanged, so no node is allocated. -/
theorem prod_identity (c : Ctx) (x y : MX) (s : Nat) :
    (c.isIdentity x = true → prod c x y s = .ok (y, s)) ∧
    (c.isIdentity x = false → c.isIdentity y = true → prod c x y s = .ok (x, s)) := by
  constructor
  · intro h
    simp [prod, h]
  · intro h1 h2
    simp [prod, h1, h2]

/-- C12, witness: the identity `eye(2)` and the 2x2 symbolic leaf. -/
theorem prod_identity_witness :
    prod stdCtx eye2 symX 8 = .ok (symX, 8) ∧ prod stdCtx symX eye2 8 = .ok (symX, 8) :=
  ⟨(prod_identity stdCtx eye2 symX 8).1 rfl, (prod_identity stdCtx symX eye2 8).2 rfl rfl⟩

/-- C13.  Let `x` be `m x k` and `y` be `k x p`, at least one of them
structurally zero.  Then `prod(x, y)` returns a structurally-zero matrix of
shape `m x p`, and the only node it may allocate is the Mapping of
`zeros(m, p)`: the result is `x`, `y`, or that new zero matrix.  The
predicates are assumed to be consistent: an identity matrix is square, a
matrix without structural nonzeros is structurally zero, and an identity
operand that is itself structurally zero (a 0x0 matrix) comes with a
structurally-zero other operand. -/
theorem prod_zero (c : Ctx) (x y : MX) (s : Nat)
    (hsq : ∀ m : MX, c.isIdentity m = true → m.size1 = m.size2)
    (hz0 : ∀ m : MX, m.size = 0 → c.isZero m = true)
    (hshape : x.size2 = y.size1)
    (hz : c.isZero x = true ∨ c.isZero y = true)
    (hix : c.isIdentity x = true → c.isZero x = true → c.isZero y = true)
    (hiy : c.isIdentity y = true → c.isZero y = true → c.isZero x = true) :
    ∃ r s1, prod c x y s = .ok (r, s1) ∧
      r.size1 = x.size1 ∧ r.size2 = y.size2 ∧ c.isZero r = true ∧
      (((r = x ∨ r = y) ∧ s1 = s) ∨ (r, s1) = zeros x.size1 y.size2 s) := by
  by_cases h1 : c.isIdentity x = true
  · have hy : c.isZero y = true := by
      rcases hz with h | h
      · exact hix h1 h
      · exact h
    refine ⟨y, s, by simp [prod, h1], ?_, rfl, hy, Or.inl ⟨Or.inr rfl, rfl⟩⟩
    rw [← hshape, hsq x h1]
  · by_cases h2 : c.isIdentity y = true
    · have hx : c.isZero x = true := by
        rcases hz with h | h
        · exact h
        · exact hiy h2 h
      refine ⟨x, s, by simp [prod, h1, h2], rfl, ?_, hx, Or.inl ⟨Or.inl rfl, rfl⟩⟩
      rw [hshape, hsq y h2]
    · have hzz : (c.isZero x || c.isZero y) = true := by
        rcases hz with h | h <;> simp [h]
      refine ⟨(zeros x.size1 y.size2 s).1, (zeros x.size1 y.size2 s).2, ?_, rfl, rfl,
        hz0 _ rfl, Or.inr rfl⟩
      simp [prod, h1, h2, hzz]

/-- The concrete `isIdentity` only holds of square matrices. -/
theorem std_isIdentity_square (m : MX) (h : stdCtx.isIdentity m = true) :
    m.size1 = m.size2 := by
  cases m with
  | constant a sp data =>
    have h' : sp = CRSSparsity.createDiagonal sp.nrow := by
      simp only [stdCtx, std_isIdentity, Bool.and_eq_true, decide_eq_true_eq] at h
      exact h.1
    show sp.nrow = sp.ncol
    rw [h']
    rfl
  | _ => simp [stdCtx, std_isIdentity] at h

/-- The concrete `isZero` holds of every matrix without structural nonzeros. -/
theorem std_isZero_of_size (m : MX) (h : m.size = 0) : stdCtx.isZero m = true := by
  simp [stdCtx, std_isZero, h]

/-- C13, witness: the product of the 2x2 symbolic leaf with a 2x2 zero
matrix. -/
theorem prod_zero_witness :
    ∃ r s1, prod stdCtx symX zerosB 8 = .ok (r, s1) ∧
      r.size1 = symX.size1 ∧ r.size2 = zerosB.size2 ∧ stdCtx.isZero r = true ∧
      (((r = symX ∨ r = zerosB) ∧ s1 = 8) ∨ (r, s1) = zeros symX.size1 zerosB.size2 8) :=
  prod_zero stdCtx symX zerosB 8 std_isIdentity_square std_isZero_of_size rfl (Or.inr rfl)
    (fun h => absurd h (by decide)) (fun h => absurd h (by decide))

/-! ## Matrix division -/

/-- C17, evaluation at the failing input.  With the scalar leaf `e` and the
2x2 leaf `x`: the left division `e.__ldivide__(x)`, whose divisor `e` is a
scalar, fails with "not implemented", and `x.__ldivide__(e)`, whose divisor
`x` is not a scalar, succeeds and returns `x / e`, the divisor divided by
the dividend; `__rmldivide__` behaves in the mirrored way:
`x.__rmldivide__(e)` fails although the divisor `e` is a scalar, and
`e.__rmldivide__(x)` returns `x / e` although the divisor `x` is not.  The
right divisions do what the claim says. -/
theorem ldivide_evaluation :
    symE.numel = 1 ∧ symX.numel = 4 ∧
    __ldivide__ stdCtx symE symX 2 = .error .notImplemented ∧
    __ldivide__ stdCtx symX symE 2
      = .ok (.binaryOp 2 (CRSSparsity.dense 2 2) .DIV symX symE, 3) ∧
    __rmldivide__ stdCtx symX symE 2 = .error .notImplemented ∧
    __rmldivide__ stdCtx symE symX 2
      = .ok (.binaryOp 2 (CRSSparsity.dense 2 2) .DIV symX symE, 3) ∧
    __mrdivide__ stdCtx symX symE 2
      = .ok (.binaryOp 2 (CRSSparsity.dense 2 2) .DIV symX symE, 3) ∧
    __mrdivide__ stdCtx symE symX 2 = .error .notImplemented ∧
    __rmrdivide__ stdCtx symE symX 2
      = .ok (.binaryOp 2 (CRSSparsity.dense 2 2) .DIV symX symE, 3) ∧
    __rmrdivide__ stdCtx symX symE 2 = .error .notImplemented := by
  refine ⟨rfl, rfl, rfl, rfl, rfl, rfl, rfl, rfl, rfl, rfl⟩

/-! ## Termination of `operator+` and `operator-` -/

/-- An operation node has a first dependency of smaller height. -/
theorem height_dep0_lt (m : MX) (op : Operation) (h : m.isOperation op = true) :
    m.dep0.height < m.height := by
  cases m <;> simp [isOperation, dep0, height] at h ⊢

/-- C18.  `operator+` and `operator-` terminate: every recursive call
replaces an operand that is a `NEG` node by its first dependency, so that the
sum of the operand heights decreases; run with any bound on the call depth
that exceeds this sum, the code never reaches the bound and returns the
result of the operator. -/
theorem add_sub_terminate (c : Ctx) (n : Nat) (x y : MX) (s : Nat)
    (h : x.height + y.height < n) :
    addFuel n c x y s = some (add c x y s) ∧ subFuel n c x y s = some (sub c x y s) := by
  induction n generalizing x y s with
  | zero => omega
  | succ n ih =>
    constructor
    · rw [addFuel, add]
      by_cases h1 : (((x.size1 == y.size1 && x.size2 == y.size2) || x.numel == 1) &&
          c.isZero x) = true
      · rw [if_pos h1, if_pos h1]
      · rw [if_neg h1, if_neg h1]
        by_cases h2 : (((x.size1 == y.size1 && x.size2 == y.size2) || y.numel == 1) &&
            c.isZero y) = true
        · rw [if_pos h2, if_pos h2]
        · rw [if_neg h2, if_neg h2]
          by_cases h3 : y.isOperation .NEG = true
          · rw [if_pos h3, dif_pos h3]
            have := height_dep0_lt y .NEG h3
            exact (ih x y.dep0 s (by omega)).2
          · rw [if_neg h3, dif_neg h3]
            by_cases h4 : x.isOperation .NEG = true
            · rw [if_pos h4, dif_pos h4]
              have := height_dep0_lt x .NEG h4
              exact (ih y x.dep0 s (by omega)).2
            · rw [if_neg h4, dif_neg h4]
    · rw [subFuel, sub]
      by_cases h1 : (((x.size1 == y.size1 && x.size2 == y.size2) || x.numel == 1) &&
          c.isZero x) = true
      · rw [if_pos h1, if_pos h1]
      · rw [if_neg h1, if_neg h1]
        by_cases h2 : (((x.size1 == y.size1 && x.size2 == y.size2) || y.numel == 1) &&
            c.isZero y) = true
        · rw [if_pos h2, if_pos h2]
        · rw [if_neg h2, if_neg h2]
          by_cases h3 : y.isOperation .NEG = true
          · rw [if_pos h3, dif_pos h3]
            have := height_dep0_lt y .NEG h3
            exact (ih x y.dep0 s (by omega)).1
          · rw [if_neg h3, dif_neg h3]
            by_cases h4 : (y.addr == x.addr) = true
            · rw [if_pos h4, if_pos h4]
            · rw [if_neg h4, if_neg h4]

/-- C18, witness: the negation of a negation minus itself, of operand heights
two and two, run with the bound five. -/
theorem add_sub_terminate_witness :
    addFuel 5 stdCtx negNegX negNegX 3 = some (add stdCtx negNegX negNegX 3) ∧
    subFuel 5 stdCtx negNegX negNegX 3 = some (sub stdCtx negNegX negNegX 3) :=
  add_sub_terminate stdCtx 5 negNegX negNegX 3 (by decide)

/-! ## Assignment to a submatrix -/

theorem dense_size (nrow ncol : Nat) : (CRSSparsity.dense nrow ncol).size = nrow * ncol := by
  simp [CRSSparsity.dense, CRSSparsity.size]

/-- The value built by `MX(nrow, ncol, val)` from a scalar with one nonzero. -/
theorem mkFilled_eq (nrow ncol : Nat) (val : MX) (s : Nat) (h1 : val.size = 1)
    (h2 : val.numel = 1) :
    mkFilled nrow ncol val s
      = .ok ((Mapping s (CRSSparsity.dense nrow ncol)).addDependency val
          (List.replicate (CRSSparsity.dense nrow ncol).size 0), s + 1) := by
  simp [mkFilled, h1, h2]

theorem mkFilled_sparsity (nrow ncol : Nat) (val : MX) (s : Nat) :
    ((Mapping s (CRSSparsity.dense nrow ncol)).addDependency val
      (List.replicate (CRSSparsity.dense nrow ncol).size 0)).sparsity
      = CRSSparsity.dense nrow ncol := rfl

/-- C20.  `setSub` is a total function.  When its scalar branch is taken
(`el` is 1x1 with one nonzero and `ii` or `jj` has more than one index) the
constructor `MX(|ii|, |jj|, el)` succeeds with a dense `|ii| x |jj|` value
for which the branch condition is false, so the call made with it passes
both dimension assertions and runs the non-recursive part of the function:
the recursion has depth one.  When the branch is not taken there is no
recursive call.  This holds whether `el` is bound to another handle or to
`*this`. -/
theorem setSub_recursion_depth (c : Ctx) (this : MX) (ii jj : List Int) (el : ConstRef)
    (s : Nat) :
    (((el.get this).size = 1 ∧ (el.get this).numel = 1) ∧
        (ii.length > 1 ∨ jj.length > 1) →
      ∃ el1 : MX, mkFilled ii.length jj.length (el.get this) s = .ok (el1, s + 1) ∧
        el1.sparsity = CRSSparsity.dense ii.length jj.length ∧
        el1.size = ii.length * jj.length ∧
        ¬ ((el1.size = 1 ∧ el1.numel = 1) ∧ (ii.length > 1 ∨ jj.length > 1)) ∧
        (ii.length != el1.size1) = false ∧ (jj.length != el1.size2) = false ∧
        setSub c this ii jj el s = setSub_assign c this ii jj (.other el1) (s + 1) ∧
        setSub c this ii jj (.other el1) (s + 1)
          = setSub_assign c this ii jj (.other el1) (s + 1)) ∧
    (¬ (((el.get this).size = 1 ∧ (el.get this).numel = 1) ∧
        (ii.length > 1 ∨ jj.length > 1)) →
      setSub c this ii jj el s = setSub_assign c this ii jj el s) := by
  constructor
  · intro h
    have hmk := mkFilled_eq ii.length jj.length (el.get this) s h.1.1 h.1.2
    have hsz : ((Mapping s (CRSSparsity.dense ii.length jj.length)).addDependency
        (el.get this) (List.replicate (CRSSparsity.dense ii.length jj.length).size 0)).size
        = ii.length * jj.length := by
      show (CRSSparsity.dense ii.length jj.length).size = _
      exact dense_size _ _
    have hn : ¬ ((((Mapping s (CRSSparsity.dense ii.length jj.length)).addDependency
        (el.get this) (List.replicate (CRSSparsity.dense ii.length jj.length).size 0)).size
          = 1 ∧
        ((Mapping s (CRSSparsity.dense ii.length jj.length)).addDependency (el.get this)
        (List.replicate (CRSSparsity.dense ii.length jj.length).size 0)).numel = 1) ∧
        (ii.length > 1 ∨ jj.length > 1)) := by
      rintro ⟨⟨h1, -⟩, h2⟩
      rw [hsz] at h1
      have := Nat.eq_one_of_mul_eq_one_right h1
      have := Nat.eq_one_of_mul_eq_one_left h1
      omega
    have hrec : setSub c this ii jj (.other ((Mapping s (CRSSparsity.dense ii.length
        jj.length)).addDependency (el.get this)
        (List.replicate (CRSSparsity.dense ii.length jj.length).size 0))) (s + 1)
        = setSub_assign c this ii jj (.other ((Mapping s (CRSSparsity.dense ii.length
        jj.length)).addDependency (el.get this)
        (List.replicate (CRSSparsity.dense ii.length jj.length).size 0))) (s + 1) := by
      rw [setSub]
      exact dif_neg hn
    refine ⟨_, hmk, rfl, hsz, hn, ?_, ?_, ?_, hrec⟩
    · have : ((Mapping s (CRSSparsity.dense ii.length jj.length)).addDependency (el.get this)
          (List.replicate (CRSSparsity.dense ii.length jj.length).size 0)).size1
          = ii.length := rfl
      rw [this]
      simp
    · have : ((Mapping s (CRSSparsity.dense ii.length jj.length)).addDependency (el.get this)
          (List.replicate (CRSSparsity.dense ii.length jj.length).size 0)).size2
          = jj.length := rfl
      rw [this]
      simp
    · rw [setSub, dif_pos h]
      split
      · next e he =>
        rw [hmk] at he
        cases he
      · next el1 s1 he =>
        rw [hmk] at he
        cases he
        exact hrec
  · intro h
    rw [setSub, dif_neg h]

/-- C20, witness: a scalar leaf assigned to the first column of a dense 2x3
matrix. -/
theorem setSub_recursion_depth_witness :
    ∃ el1 : MX, mkFilled [(0 : Int), 1].length [(0 : Int)].length
        ((ConstRef.other symE).get symM) 2 = .ok (el1, 2 + 1) ∧
      el1.sparsity = CRSSparsity.dense [(0 : Int), 1].length [(0 : Int)].length ∧
      el1.size = [(0 : Int), 1].length * [(0 : Int)].length ∧
      ¬ ((el1.size = 1 ∧ el1.numel = 1) ∧
        ([(0 : Int), 1].length > 1 ∨ [(0 : Int)].length > 1)) ∧
      ([(0 : Int), 1].length != el1.size1) = false ∧
      ([(0 : Int)].length != el1.size2) = false ∧
      setSub stdCtx symM [0, 1] [0] (.other symE) 2
        = setSub_assign stdCtx symM [0, 1] [0] (.other el1) (2 + 1) ∧
      setSub stdCtx symM [0, 1] [0] (.other el1) (2 + 1)
        = setSub_assign stdCtx symM [0, 1] [0] (.other el1) (2 + 1) :=
  (setSub_recursion_depth stdCtx symM [0, 1] [0] (.other symE) 2).1
    ⟨⟨rfl, rfl⟩, Or.inl (by decide)⟩

/-- C14, evaluation at the failing input.  The target is the dense 2x3 leaf
`m` and the value the dense scalar leaf `e`, so the dense mode runs.  With
`ii = [0]` and `jj = [4]` the column index lies outside `[-3, 2]`, but no
error is raised: the flat index `0*3 + 4 = 4` is below the six nonzeros and
the value is stored into nonzero 4, the entry in row 1 and column 1.  With
`ii = [0]` and `jj = [-1]` the flat index `-1` is counted from the end of the
nonzeros and the value is stored into nonzero 5, the last entry of row 1,
not into the last entry of row 0 (nonzero 2). -/
theorem setSub_dense_no_range_check :
    symM.size1 = 2 ∧ symM.size2 = 3 ∧ symM.isDense = true ∧ symE.isDense = true ∧
    setSub stdCtx symM [0] [4] (.other symE) 2
      = (.ok (), .mapping 3 (CRSSparsity.dense 2 3)
          [symM, .mapping 2 (CRSSparsity.dense 1 1) [symE] [0] [0]]
          [0, 1, 2, 3, 0, 5] [0, 0, 0, 0, 1, 0], 4) ∧
    setSub stdCtx symM [0] [-1] (.other symE) 2
      = (.ok (), .mapping 3 (CRSSparsity.dense 2 3)
          [symM, .mapping 2 (CRSSparsity.dense 1 1) [symE] [0] [0]]
          [0, 1, 2, 3, 4, 0] [0, 0, 0, 0, 0, 1], 4) := by
  refine ⟨rfl, rfl, rfl, rfl, ?_, ?_⟩
  · rw [setSub, dif_neg (by decide)]
    rfl
  · rw [setSub, dif_neg (by decide)]
    rfl

/-! ## Inner product -/

theorem numel_eq_one (m : MX) (h : m.numel = 1) : m.size1 = 1 ∧ m.size2 = 1 := by
  have h' : m.size1 * m.size2 = 1 := h
  exact ⟨Nat.eq_one_of_mul_eq_one_right h', Nat.eq_one_of_mul_eq_one_left h'⟩

theorem ScalarChain.numel {m : MX} (h : ScalarChain m) : m.numel = 1 := by
  cases m <;> simp only [ScalarChain] at h
  · exact h
  · exact h
  · exact h.1
  · exact h.1
  · exact h
  · exact h

theorem ScalarChain.dep0 {m : MX} (h : ScalarChain m) : ScalarChain m.dep0 := by
  cases m <;> simp only [ScalarChain, MX.dep0] at h ⊢
  · exact h
  · exact h
  · exact h.2
  · exact h.2
  · exact h
  · exact h

theorem scalarChain_zeros (x : MX) (s : Nat) (h : x.numel = 1) :
    ScalarChain (zeros x.size1 x.size2 s).1 := h

theorem scalarChain_getSub (x : MX) (i j : Int) (s : Nat) :
    ScalarChain (getSub x i j s).1 ∧ (getSub x i j s).2 = s + 1 := by
  unfold getSub
  by_cases h : x.sparsity.getNZ i j ≥ 0
  · rw [if_pos h]
    exact ⟨rfl, rfl⟩
  · rw [if_neg h]
    exact ⟨rfl, rfl⟩

theorem scalarChain_neg (c : Ctx)
    (hun : ∀ op sp, CRSSparsity.numel sp = 1 → (c.unarySparsity op sp).numel = 1)
    (x : MX) (s : Nat) (h : ScalarChain x) : ScalarChain (neg c x s).1 := by
  unfold neg
  by_cases h1 : x.isOperation .NEG = true
  · simp only [h1, if_true]
    exact h.dep0
  · simp only [h1]
    unfold unary
    by_cases h2 : (c.f0x_is_zero .NEG && c.isZero x) = true
    · simp only [h2, if_true]
      exact scalarChain_zeros x s h.numel
    · simp only [h2]
      exact ⟨hun _ _ h.numel, h⟩

theorem scalarChain_binary (c : Ctx)
    (hbin : ∀ op a b, CRSSparsity.numel a = 1 → CRSSparsity.numel b = 1 →
      (c.binarySparsity op a b).numel = 1)
    (op : Operation) (x y : MX) (s : Nat) (hx : ScalarChain x) (hy : ScalarChain y) :
    ∃ r s1, binary c op x y s = .ok (r, s1) ∧ ScalarChain r := by
  have hxn := hx.numel
  have hyn := hy.numel
  have hnode : ScalarChain (MX.binaryOp s (c.binarySparsity op x.sparsity y.sparsity) op x y) :=
    ⟨hbin _ _ _ hxn hyn, hx⟩
  unfold binary
  simp only [hxn, beq_self_eq_true, Bool.true_or, Bool.not_true, Bool.false_eq_true, if_false,
    if_true]
  by_cases h : ((c.f0x_is_zero op && c.isZero x) || (c.fx0_is_zero op && c.isZero y)) = true
  · rw [if_pos h]
    refine ⟨_, _, rfl, ?_⟩
    have h1 := numel_eq_one x hxn
    have h2 := numel_eq_one y hyn
    show (max x.size1 y.size1) * (max x.size2 y.size2) = 1
    rw [h1.1, h1.2, h2.1, h2.2]
    rfl
  · rw [if_neg h]
    exact ⟨_, _, rfl, hnode⟩

theorem scalarChain_add_sub (c : Ctx)
    (hun : ∀ op sp, CRSSparsity.numel sp = 1 → (c.unarySparsity op sp).numel = 1)
    (hbin : ∀ op a b, CRSSparsity.numel a = 1 → CRSSparsity.numel b = 1 →
      (c.binarySparsity op a b).numel = 1)
    (n : Nat) (x y : MX) (s : Nat) (h : x.height + y.height < n)
    (hx : ScalarChain x) (hy : ScalarChain y) :
    (∃ r s1, add c x y s = .ok (r, s1) ∧ ScalarChain r) ∧
    (∃ r s1, sub c x y s = .ok (r, s1) ∧ ScalarChain r) := by
  induction n generalizing x y s with
  | zero => omega
  | succ n ih =>
    constructor
    · rw [add]
      split_ifs with h1 h2 h3 h4
      · exact ⟨_, _, rfl, hy⟩
      · exact ⟨_, _, rfl, hx⟩
      · have := height_dep0_lt y .NEG h3
        exact (ih x y.dep0 s (by omega) hx hy.dep0).2
      · have := height_dep0_lt x .NEG h4
        exact (ih y x.dep0 s (by omega) hy hx.dep0).2
      · exact scalarChain_binary c hbin .ADD x y s hx hy
    · rw [sub]
      split_ifs with h1 h2 h3 h4
      · exact ⟨_, _, rfl, scalarChain_neg c hun y s hy⟩
      · exact ⟨_, _, rfl, hx⟩
      · have := height_dep0_lt y .NEG h3
        exact (ih x y.dep0 s (by omega) hx hy.dep0).1
      · exact ⟨_, _, rfl, scalarChain_zeros x s hx.numel⟩
      · exact scalarChain_binary c hbin .SUB x y s hx hy

theorem scalarChain_mul (c : Ctx)
    (hun : ∀ op sp, CRSSparsity.numel sp = 1 → (c.unarySparsity op sp).numel = 1)
    (hbin : ∀ op a b, CRSSparsity.numel a = 1 → CRSSparsity.numel b = 1 →
      (c.binarySparsity op a b).numel = 1)
    (x y : MX) (s : Nat) (hx : ScalarChain x) (hy : ScalarChain y) :
    ∃ r s1, mul c x y s = .ok (r, s1) ∧ ScalarChain r := by
  unfold mul
  split_ifs
  · exact ⟨_, _, rfl, hy⟩
  · exact ⟨_, _, rfl, scalarChain_neg c hun y s hy⟩
  · exact ⟨_, _, rfl, hx⟩
  · exact ⟨_, _, rfl, scalarChain_neg c hun x s hx⟩
  · exact scalarChain_binary c hbin .MUL x y s hx hy

/-- One pass of the loop of `inner_prod` keeps a scalar running sum. -/
theorem scalarChain_inner_prod_step (c : Ctx)
    (hun : ∀ op sp, CRSSparsity.numel sp = 1 → (c.unarySparsity op sp).numel = 1)
    (hbin : ∀ op a b, CRSSparsity.numel a = 1 → CRSSparsity.numel b = 1 →
      (c.binarySparsity op a b).numel = 1)
    (x y sum : MX) (s i : Nat) (hsum : ScalarChain sum) :
    ∃ r s1, inner_prod_step c x y (.ok (sum, s)) i = .ok (r, s1) ∧ ScalarChain r := by
  obtain ⟨p, s1, hp, hps⟩ := scalarChain_mul c hun hbin (getSub x i 0 s).1
    (getSub y i 0 (getSub x i 0 s).2).1 (getSub y i 0 (getSub x i 0 s).2).2
    (scalarChain_getSub x i 0 s).1 (scalarChain_getSub y i 0 _).1
  simp only [inner_prod_step, hp]
  exact (scalarChain_add_sub c hun hbin (sum.height + p.height + 1) sum p s1 (by omega)
    hsum hps).1

theorem scalarChain_inner_prod_loop (c : Ctx)
    (hun : ∀ op sp, CRSSparsity.numel sp = 1 → (c.unarySparsity op sp).numel = 1)
    (hbin : ∀ op a b, CRSSparsity.numel a = 1 → CRSSparsity.numel b = 1 →
      (c.binarySparsity op a b).numel = 1)
    (x y : MX) (l : List Nat) (sum : MX) (s : Nat) (hsum : ScalarChain sum) :
    ∃ r s1, l.foldl (inner_prod_step c x y) (.ok (sum, s)) = .ok (r, s1) ∧ ScalarChain r := by
  induction l generalizing sum s with
  | nil => exact ⟨_, _, rfl, hsum⟩
  | cons i l ih =>
    obtain ⟨r, s1, hr, hrs⟩ := scalarChain_inner_prod_step c hun hbin x y sum s i hsum
    rw [List.foldl_cons, hr]
    exact ih r s1 hrs

/-- C16.  `inner_prod(x, y)` fails if and only if `x` does not have exactly
one column, or `y` does not have exactly one column, or their row counts
differ; for two column vectors of equal length it returns a handle, which for
length zero is the constant scalar 0 allocated at the start.  The node
constructors are assumed to give a 1x1 pattern to an operation on 1x1
operands. -/
theorem inner_prod_fails_iff (c : Ctx)
    (hun : ∀ op sp, CRSSparsity.numel sp = 1 → (c.unarySparsity op sp).numel = 1)
    (hbin : ∀ op a b, CRSSparsity.numel a = 1 → CRSSparsity.numel b = 1 →
      (c.binarySparsity op a b).numel = 1)
    (x y : MX) (s : Nat) :
    ((∃ e, inner_prod c x y s = .error e) ↔
      (x.size2 ≠ 1 ∨ y.size2 ≠ 1 ∨ x.size1 ≠ y.size1)) ∧
    (x.size2 = 1 → y.size2 = 1 → x.size1 = y.size1 →
      ∃ r s1, inner_prod c x y s = .ok (r, s1)) ∧
    (x.size2 = 1 → y.size2 = 1 → x.size1 = 0 → y.size1 = 0 →
      inner_prod c x y s = .ok (.constant s (CRSSparsity.dense 1 1) [0], s + 1)) := by
  have hok : x.size2 = 1 → y.size2 = 1 → x.size1 = y.size1 →
      ∃ r s1, inner_prod c x y s = .ok (r, s1) := by
    intro h1 h2 h3
    obtain ⟨r, s1, hr, -⟩ := scalarChain_inner_prod_loop c hun hbin x y (List.range x.size1)
      (mkConstant 0 s).1 (mkConstant 0 s).2 rfl
    refine ⟨r, s1, ?_⟩
    simp only [inner_prod, h1, h2, h3, bne_self_eq_false, Bool.false_eq_true, if_false]
    rw [← h3]
    exact hr
  refine ⟨⟨?_, ?_⟩, hok, ?_⟩
  · rintro ⟨e, he⟩
    by_contra hcon
    push_neg at hcon
    obtain ⟨r, s1, hr⟩ := hok hcon.1 hcon.2.1 hcon.2.2
    rw [hr] at he
    cases he
  · intro h
    unfold inner_prod
    by_cases h1 : x.size2 = 1
    · by_cases h2 : y.size2 = 1
      · have h3 : x.size1 ≠ y.size1 := by tauto
        exact ⟨.innerProdDimensionMismatch, by simp [h1, h2, h3]⟩
      · exact ⟨.secondFactorNotVector, by simp [h1, h2]⟩
    · exact ⟨.firstFactorNotVector, by simp [h1]⟩
  · intro h1 h2 h3 h4
    simp [inner_prod, h1, h2, h3, h4, mkConstant]

theorem std_unarySparsity_numel (op : Operation) (sp : CRSSparsity)
    (h : CRSSparsity.numel sp = 1) : (stdCtx.unarySparsity op sp).numel = 1 := by
  show (std_unarySparsity op sp).numel = 1
  unfold std_unarySparsity
  split_ifs
  · exact h
  · exact h

theorem std_binarySparsity_numel (op : Operation) (a b : CRSSparsity)
    (ha : CRSSparsity.numel a = 1) (hb : CRSSparsity.numel b = 1) :
    (stdCtx.binarySparsity op a b).numel = 1 := by
  show (std_binarySparsity op a b).numel = 1
  simp only [std_binarySparsity, ha, beq_self_eq_true, if_true]
  exact hb

/-- C16, witness: two symbolic column vectors of length two. -/
theorem inner_prod_fails_witness :
    ∃ r s1, inner_prod stdCtx symU symV 2 = .ok (r, s1) :=
  (inner_prod_fails_iff stdCtx std_unarySparsity_numel std_binarySparsity_numel
    symU symV 2).2.1 rfl rfl rfl

/-! ## The dense mode of `setSub` -/

/-- Two nested loops visit the index pairs in row-major order. -/
theorem foldl_nested_eq_product {α : Type} (f : Nat → α → Nat → α) (l1 l2 : List Nat)
    (init : α) :
    l1.foldl (fun acc i => l2.foldl (f i) acc) init
      = (l1.product l2).foldl (fun acc p => f p.1 acc p.2) init := by
  induction l1 generalizing init with
  | nil => rfl
  | cons i l1 ih =>
    rw [List.foldl_cons, ih]
    show _ = List.foldl _ init ((List.map (Prod.mk i) l2) ++ l1.product l2)
    rw [List.foldl_append, List.foldl_map]

/-- Storing a value with a single nonzero into the nonzeros `k`: the slots
listed in `k` are supplied by nonzero 0 of the value, the other slots by the
nonzero of the same index of the previous target. -/
theorem setNZ_vector_supplied (c : Ctx) (hc : c.SimplifyFaithful) (this el : MX)
    (k : List Int) (s : Nat) (hel : el.size = 1) :
    ∃ r : MX, setNZ_vector c this k el s = (.ok (), r, s + 1) ∧
      r.sparsity = this.sparsity ∧
      ∀ i : Nat, i < this.size →
        ((i : Int) ∈ k → r.suppliedBy i el 0) ∧
        ((i : Int) ∉ k → r.suppliedBy i this (i : Int)) := by
  rw [setNZ_vector_scalar_eq c this el k s hel]
  refine ⟨_, rfl, (hc _).1, ?_⟩
  intro i hi
  have hlen1 : i < (assignNZ (List.replicate this.size (-1)) (range (range this.size).length)
      (range this.size)).length := by
    rw [assignNZ_length, List.length_replicate]; exact hi
  have hlen2 : i < (assignNZ (List.replicate this.size (-1)) (range (range this.size).length)
      (List.replicate (range (range this.size).length).length (Int.ofNat 0))).length := by
    rw [assignNZ_length, List.length_replicate]; exact hi
  have hlen0 : i < (List.replicate this.size (-1 : Int)).length := by
    rw [List.length_replicate]; exact hi
  have hmemr : (i : Int) ∈ range (range this.size).length := by
    rw [range_length, mem_range]; exact hi
  constructor
  · intro hmem
    apply (hc _).2
    refine ⟨1, ?_, rfl, ?_⟩
    · rw [assignNZ_replicate_getElem? k _ _ i hlen2, if_pos hmem]
      rfl
    · rw [assignNZ_replicate_getElem? k _ _ i hlen1, if_pos hmem]
  · intro hmem
    apply (hc _).2
    refine ⟨0, ?_, rfl, ?_⟩
    · rw [assignNZ_replicate_getElem? k _ _ i hlen2, if_neg hmem,
        assignNZ_replicate_getElem? _ _ _ i hlen0, if_pos hmemr]
      rfl
    · rw [assignNZ_replicate_getElem? k _ _ i hlen1, if_neg hmem]
      have hr := assignNZ_map_getElem? (range this.size) (fun a => a)
        (List.replicate this.size (-1)) i hlen0
      rw [List.map_id', if_pos ((mem_range _ _).2 hi)] at hr
      rw [range_length, hr]

theorem Traces.trans {m d e : MX} {i j k : Nat} (h1 : Traces m i d j) (h2 : Traces d j e k) :
    Traces m i e k := by
  induction h1 with
  | refl => exact h2
  | step hs _ ih => exact Traces.step hs (ih h2)

/-- The assignment `(*this)[k] = el[m]` for indices in range: nonzero `k` of
the new target takes its value from nonzero `m` of `el`, every other nonzero
is supplied by the same nonzero of the previous target. -/
theorem assignElem_spec (c : Ctx) (hc : c.SimplifyFaithful) (this el : MX) (k m : Int)
    (s : Nat) (hk0 : 0 ≤ k) (hk : k < (this.size : Int)) (hm0 : 0 ≤ m)
    (hm : m < (el.size : Int)) :
    ∃ r : MX, assignElem c this el k m s = (.ok (), r, s + 2) ∧
      r.sparsity = this.sparsity ∧ Traces r k.toNat el m.toNat ∧
      ∀ q : Nat, q < this.size → (q : Int) ≠ k → r.suppliedBy q this (q : Int) := by
  have hget : getNZ el m s = .ok (.mapping s (CRSSparsity.dense 1 1) [el] [m] [0], s + 1) := by
    unfold getNZ
    have h1 : ¬ (m < 0) := by omega
    have h2 : ¬ (m ≥ (el.size : Int)) := by omega
    simp only [h1, if_false, h2]
    rfl
  have hv : (MX.mapping s (CRSSparsity.dense 1 1) [el] [m] [0]).size = 1 := rfl
  obtain ⟨r, hr, hsp, hsl⟩ := setNZ_vector_supplied c hc this
    (.mapping s (CRSSparsity.dense 1 1) [el] [m] [0]) [k] (s + 1) hv
  refine ⟨r, ?_, hsp, ?_, ?_⟩
  · unfold assignElem
    rw [hget]
    show setNZ c this k _ (s + 1) = _
    unfold setNZ
    have h1 : ¬ (k < 0) := by omega
    have h2 : ¬ (k ≥ (this.size : Int)) := by omega
    simp only [h1, if_false, h2]
    exact hr
  · have hkn : k.toNat < this.size := by omega
    have hkk : ((k.toNat : Nat) : Int) = k := Int.toNat_of_nonneg hk0
    have h1 := (hsl k.toNat hkn).1 (by rw [hkk]; exact List.mem_singleton.2 rfl)
    have h2 : (MX.mapping s (CRSSparsity.dense 1 1) [el] [m] [0]).suppliedBy 0 el
        ((m.toNat : Nat) : Int) := by
      left
      refine ⟨0, rfl, rfl, ?_⟩
      rw [Int.toNat_of_nonneg hm0]
      rfl
    exact Traces.step (j := 0) h1 (Traces.step h2 (Traces.refl _ _))
  · intro q hq hne
    exact (hsl q hq).2 (by simpa using hne)

/-- The loops of the dense mode over a list of index pairs whose flat
indices are in range and pairwise different: every visited nonzero takes its
value from the nonzero of `el` paired with it, every other nonzero is
supplied as before the loops. -/
theorem setSub_dense_fold (c : Ctx) (hc : c.SimplifyFaithful) (el : MX) (ii jj : List Int)
    (sp0 : CRSSparsity) (L : List (Nat × Nat))
    (hL : ∀ p ∈ L, 0 ≤ ii.getD p.1 0 * (sp0.size2 : Int) + jj.getD p.2 0 ∧
      ii.getD p.1 0 * (sp0.size2 : Int) + jj.getD p.2 0 < (sp0.size : Int) ∧
      (p.1 : Int) * (el.size2 : Int) + (p.2 : Int) < (el.size : Int))
    (hnd : (L.map (fun p => ii.getD p.1 0 * (sp0.size2 : Int) + jj.getD p.2 0)).Nodup)
    (hfitK : ∀ p ∈ L, int32 (int32 (ii.getD p.1 0 * (sp0.size2 : Int)) + jj.getD p.2 0)
      = ii.getD p.1 0 * (sp0.size2 : Int) + jj.getD p.2 0)
    (hfitS : ∀ p ∈ L, int32 (int32 ((p.1 : Int) * (el.size2 : Int)) + (p.2 : Int))
      = (p.1 : Int) * (el.size2 : Int) + (p.2 : Int))
    (t0 : MX) (s : Nat) (ht0 : t0.sparsity = sp0) :
    ∃ t s1, L.foldl (fun acc p => setSub_dense_step c (.other el) ii jj p.1 acc p.2)
        (.ok (), t0, s) = (.ok (), t, s1) ∧
      t.sparsity = sp0 ∧
      (∀ p ∈ L, Traces t (ii.getD p.1 0 * (sp0.size2 : Int) + jj.getD p.2 0).toNat el
        ((p.1 : Int) * (el.size2 : Int) + (p.2 : Int)).toNat) ∧
      (∀ q : Nat, q < sp0.size →
        (q : Int) ∉ L.map (fun p => ii.getD p.1 0 * (sp0.size2 : Int) + jj.getD p.2 0) →
        ∀ (e : MX) (j : Nat), Traces t0 q e j → Traces t q e j) := by
  induction L generalizing t0 s with
  | nil => exact ⟨t0, s, rfl, ht0, by simp, fun _ _ _ _ _ h => h⟩
  | cons p L ih =>
    have hp := hL p (List.mem_cons_self _ _)
    have hsz2 : t0.size2 = sp0.size2 := by
      show t0.sparsity.size2 = _
      rw [ht0]
    have hsz : t0.size = sp0.size := by
      show t0.sparsity.size = _
      rw [ht0]
    have hstep : setSub_dense_step c (.other el) ii jj p.1 (.ok (), t0, s) p.2
        = assignElem c t0 el (ii.getD p.1 0 * (sp0.size2 : Int) + jj.getD p.2 0)
            ((p.1 : Int) * (el.size2 : Int) + (p.2 : Int)) s := by
      show assignElem c t0 el
        (int32 (int32 (ii.getD p.1 0 * (t0.size2 : Int)) + jj.getD p.2 0))
        (int32 (int32 ((p.1 : Int) * (el.size2 : Int)) + (p.2 : Int))) s = _
      rw [hsz2, hfitK p (List.mem_cons_self _ _), hfitS p (List.mem_cons_self _ _)]
    have hsrc0 : (0 : Int) ≤ (p.1 : Int) * (el.size2 : Int) + (p.2 : Int) := by positivity
    obtain ⟨t1, h1, hsp1, htr1, hsup1⟩ := assignElem_spec c hc t0 el
      (ii.getD p.1 0 * (sp0.size2 : Int) + jj.getD p.2 0)
      ((p.1 : Int) * (el.size2 : Int) + (p.2 : Int)) s hp.1 (by rw [hsz]; exact hp.2.1)
      hsrc0 hp.2.2
    have hnd' : ii.getD p.1 0 * (sp0.size2 : Int) + jj.getD p.2 0 ∉
        L.map (fun p => ii.getD p.1 0 * (sp0.size2 : Int) + jj.getD p.2 0) ∧
        (L.map (fun p => ii.getD p.1 0 * (sp0.size2 : Int) + jj.getD p.2 0)).Nodup := by
      rw [List.map_cons] at hnd
      exact List.nodup_cons.1 hnd
    obtain ⟨t, s1, hf, hspt, htr, hun⟩ := ih (fun q hq => hL q (List.mem_cons_of_mem _ hq))
      hnd'.2 (fun q hq => hfitK q (List.mem_cons_of_mem _ hq))
      (fun q hq => hfitS q (List.mem_cons_of_mem _ hq)) t1 (s + 2) (hsp1.trans ht0)
    refine ⟨t, s1, ?_, hspt, ?_, ?_⟩
    · rw [List.foldl_cons, hstep, h1]
      exact hf
    · intro q hq
      rcases List.mem_cons.1 hq with rfl | hq'
      · have hkn : (ii.getD q.1 0 * (sp0.size2 : Int) + jj.getD q.2 0).toNat < sp0.size := by
          have := hp.2.1
          omega
        have hcast : (((ii.getD q.1 0 * (sp0.size2 : Int) + jj.getD q.2 0).toNat : Nat) : Int)
            = ii.getD q.1 0 * (sp0.size2 : Int) + jj.getD q.2 0 := Int.toNat_of_nonneg hp.1
        apply hun _ hkn _ _ _ htr1
        rw [hcast]
        exact hnd'.1
      · exact htr q hq'
    · intro q hq hnot e j hte
      have hne : (q : Int) ≠ ii.getD p.1 0 * (sp0.size2 : Int) + jj.getD p.2 0 := by
        intro hEq
        apply hnot
        rw [List.map_cons]
        exact List.mem_cons.2 (Or.inl hEq)
      have hnot' : (q : Int) ∉ L.map
          (fun p => ii.getD p.1 0 * (sp0.size2 : Int) + jj.getD p.2 0) := by
        intro hmem
        apply hnot
        rw [List.map_cons]
        exact List.mem_cons_of_mem _ hmem
      apply hun q hq hnot'
      exact Traces.step (hsup1 q (by rw [hsz]; exact hq) hne) hte

theorem flat_index_lt (a b r k : Int) (ha : a < r) (hb : b < k) (hk : 0 ≤ k) :
    a * k + b < r * k := by
  have h1 : 0 ≤ (r - a - 1) * k := mul_nonneg (by omega) hk
  nlinarith

theorem flat_index_inj (a b a1 b1 k : Int) (hb0 : 0 ≤ b) (hb : b < k) (hb0' : 0 ≤ b1)
    (hb' : b1 < k) (h : a * k + b = a1 * k + b1) : a = a1 ∧ b = b1 := by
  have e1 : (a * k + b) % k = b := by
    rw [Int.add_comm, Int.add_mul_emod_self, Int.emod_eq_of_lt hb0 hb]
  have e2 : (a1 * k + b1) % k = b1 := by
    rw [Int.add_comm, Int.add_mul_emod_self, Int.emod_eq_of_lt hb0' hb']
  have hbb : b = b1 := by rw [← e1, ← e2, h]
  refine ⟨?_, hbb⟩
  have hk : k ≠ 0 := by omega
  apply Int.eq_of_mul_eq_mul_right hk
  omega

theorem int32_eq (z : Int) (h0 : 0 ≤ z) (h1 : z < 2147483648) : int32 z = z := by
  unfold int32
  omega

/-- Dense mode of `setSub` for a value bound to a handle other than the
target.  Let the target be dense of shape `r x c`, the value `el` dense of
shape `|ii| x |jj|`, both with fewer than `2^31` elements, and let `ii` and
`jj` list row indices in `[0, r)` and column indices in `[0, c)` without
repetition.  Then `setSub(ii, jj, el)` succeeds; the target keeps its
pattern; for all `i`, `j` the nonzero `ii[i]*c + jj[j]` of the new target
takes its value from nonzero `i*|jj| + j` of `el`; and every entry `(a, b)`
outside the addressed region takes its value from the nonzero `a*c + b` of
the original target.  The handles are those `simplifyMapping` returns, which
is assumed to keep the pattern and the supplier of every slot. -/
theorem setSub_dense_other (c : Ctx) (hc : c.SimplifyFaithful) (this el : MX)
    (ii jj : List Int) (s : Nat)
    (hd : this.numel = this.size) (hde : el.numel = el.size)
    (hfit : this.numel < 2147483648) (hfite : el.numel < 2147483648)
    (he1 : el.size1 = ii.length) (he2 : el.size2 = jj.length)
    (hii : ∀ a ∈ ii, 0 ≤ a ∧ a < (this.size1 : Int))
    (hjj : ∀ b ∈ jj, 0 ≤ b ∧ b < (this.size2 : Int))
    (hnd1 : ii.Nodup) (hnd2 : jj.Nodup) :
    ∃ r s1, setSub c this ii jj (.other el) s = (.ok (), r, s1) ∧
      r.sparsity = this.sparsity ∧
      (∀ (i j : Nat) (hi : i < ii.length) (hj : j < jj.length),
        Traces r (ii[i] * (this.size2 : Int) + jj[j]).toNat el (i * jj.length + j)) ∧
      (∀ a b : Nat, a < this.size1 → b < this.size2 → ((a : Int) ∉ ii ∨ (b : Int) ∉ jj) →
        Traces r (a * this.size2 + b) this (a * this.size2 + b)) := by
  have hsize : this.size = this.size1 * this.size2 := hd.symm
  have hesize : el.size = ii.length * jj.length := by
    rw [← hde, ← he1, ← he2]
    rfl
  have hn : ¬ ((el.size = 1 ∧ el.numel = 1) ∧ (ii.length > 1 ∨ jj.length > 1)) := by
    rintro ⟨⟨h1, -⟩, h2⟩
    rw [hesize] at h1
    have := Nat.eq_one_of_mul_eq_one_right h1
    have := Nat.eq_one_of_mul_eq_one_left h1
    omega
  have hmemL : ∀ p ∈ (List.range ii.length).product (List.range jj.length),
      p.1 < ii.length ∧ p.2 < jj.length := by
    intro p hp
    have := List.pair_mem_product.1 (show (p.1, p.2) ∈ _ from hp)
    exact ⟨List.mem_range.1 this.1, List.mem_range.1 this.2⟩
  have hgi : ∀ i (hi : i < ii.length), ii.getD i 0 = ii[i] := fun i hi =>
    List.getD_eq_getElem _ _ hi
  have hgj : ∀ j (hj : j < jj.length), jj.getD j 0 = jj[j] := fun j hj =>
    List.getD_eq_getElem _ _ hj
  have hc0 : (0 : Int) ≤ (this.sparsity.size2 : Int) := Int.natCast_nonneg _
  -- the flat indices are in range
  have hL : ∀ p ∈ (List.range ii.length).product (List.range jj.length),
      0 ≤ ii.getD p.1 0 * (this.sparsity.size2 : Int) + jj.getD p.2 0 ∧
      ii.getD p.1 0 * (this.sparsity.size2 : Int) + jj.getD p.2 0
        < (this.sparsity.size : Int) ∧
      (p.1 : Int) * (el.size2 : Int) + (p.2 : Int) < (el.size : Int) := by
    intro p hp
    obtain ⟨h1, h2⟩ := hmemL p hp
    have ha := hii _ (List.getElem_mem h1)
    have hb := hjj _ (List.getElem_mem h2)
    rw [hgi _ h1, hgj _ h2]
    refine ⟨?_, ?_, ?_⟩
    · have := mul_nonneg ha.1 hc0
      omega
    · have hs : (this.sparsity.size : Int)
          = (this.size1 : Int) * (this.sparsity.size2 : Int) := by
        have : this.sparsity.size = this.size1 * this.sparsity.size2 := hsize
        rw [this]
        push_cast
        rfl
      rw [hs]
      exact flat_index_lt _ _ _ _ ha.2 hb.2 hc0
    · have hs : (el.size : Int) = (ii.length : Int) * (el.size2 : Int) := by
        rw [hesize, he2]
        push_cast
        rfl
      rw [hs]
      exact flat_index_lt _ _ _ _ (by exact_mod_cast h1) (by rw [he2]; exact_mod_cast h2)
        (Int.natCast_nonneg _)
  -- and pairwise different
  have hinj : ∀ p ∈ (List.range ii.length).product (List.range jj.length),
      ∀ q ∈ (List.range ii.length).product (List.range jj.length),
      ii.getD p.1 0 * (this.sparsity.size2 : Int) + jj.getD p.2 0
        = ii.getD q.1 0 * (this.sparsity.size2 : Int) + jj.getD q.2 0 → p = q := by
    intro p hp q hq hEq
    obtain ⟨p1, p2⟩ := hmemL p hp
    obtain ⟨q1, q2⟩ := hmemL q hq
    rw [hgi _ p1, hgj _ p2, hgi _ q1, hgj _ q2] at hEq
    have hbp := hjj _ (List.getElem_mem p2)
    have hbq := hjj _ (List.getElem_mem q2)
    obtain ⟨e1, e2⟩ := flat_index_inj _ _ _ _ _ hbp.1 hbp.2 hbq.1 hbq.2 hEq
    have f1 : p.1 = q.1 := (List.Nodup.getElem_inj_iff hnd1).1 e1
    have f2 : p.2 = q.2 := (List.Nodup.getElem_inj_iff hnd2).1 e2
    exact Prod.ext f1 f2
  have hnd : (((List.range ii.length).product (List.range jj.length)).map
      (fun p => ii.getD p.1 0 * (this.sparsity.size2 : Int) + jj.getD p.2 0)).Nodup :=
    List.Nodup.map_on hinj (List.Nodup.product (List.nodup_range _) (List.nodup_range _))
  have hfitK : ∀ p ∈ (List.range ii.length).product (List.range jj.length),
      int32 (int32 (ii.getD p.1 0 * (this.sparsity.size2 : Int)) + jj.getD p.2 0)
        = ii.getD p.1 0 * (this.sparsity.size2 : Int) + jj.getD p.2 0 := by
    intro p hp
    obtain ⟨h1, h2⟩ := hmemL p hp
    have ha := hii _ (List.getElem_mem h1)
    have hb := hjj _ (List.getElem_mem h2)
    have hlt := (hL p hp).2.1
    rw [hgi _ h1, hgj _ h2] at hlt ⊢
    have hmul := mul_nonneg ha.1 hc0
    have hbound : (this.sparsity.size : Int) < 2147483648 := by
      have : this.sparsity.size < 2147483648 := by
        have h3 : this.sparsity.size = this.numel := hd.symm
        omega
      exact_mod_cast this
    rw [int32_eq _ hmul (by omega), int32_eq _ (by omega) (by omega)]
  have hfitS : ∀ p ∈ (List.range ii.length).product (List.range jj.length),
      int32 (int32 ((p.1 : Int) * (el.size2 : Int)) + (p.2 : Int))
        = (p.1 : Int) * (el.size2 : Int) + (p.2 : Int) := by
    intro p hp
    have hlt := (hL p hp).2.2
    have hmul : (0 : Int) ≤ (p.1 : Int) * (el.size2 : Int) := by positivity
    have hbound : (el.size : Int) < 2147483648 := by
      have : el.size < 2147483648 := by
        have h3 : el.size = el.numel := hde.symm
        omega
      exact_mod_cast this
    rw [int32_eq _ hmul (by omega), int32_eq _ (by omega) (by omega)]
  obtain ⟨t, s1, hf, hspt, htr, hun⟩ := setSub_dense_fold c hc el ii jj this.sparsity
    ((List.range ii.length).product (List.range jj.length)) hL hnd hfitK hfitS this s rfl
  refine ⟨t, s1, ?_, hspt, ?_, ?_⟩
  · rw [setSub]
    rw [dif_neg (show ¬ ((((ConstRef.other el).get this).size = 1 ∧
      ((ConstRef.other el).get this).numel = 1) ∧ (ii.length > 1 ∨ jj.length > 1)) from hn)]
    unfold setSub_assign
    have hg : (ConstRef.other el).get this = el := rfl
    rw [hg]
    have hdd : (this.isDense && el.isDense) = true := by
      simp [isDense, hd, hde]
    rw [if_neg (by simp [he1]), if_neg (by simp [he2]), if_pos hdd]
    unfold setSub_dense
    rw [foldl_nested_eq_product]
    exact hf
  · intro i j hi hj
    have hmem : (i, j) ∈ (List.range ii.length).product (List.range jj.length) :=
      List.pair_mem_product.2 ⟨List.mem_range.2 hi, List.mem_range.2 hj⟩
    have h := htr (i, j) hmem
    simp only [hgi i hi, hgj j hj] at h
    have hsrc : ((i : Int) * (el.size2 : Int) + (j : Int)).toNat = i * jj.length + j := by
      rw [he2]
      have : ((i : Int) * (jj.length : Int) + (j : Int)) = ((i * jj.length + j : Nat) : Int) := by
        push_cast
        rfl
      rw [this, Int.toNat_ofNat]
    rw [hsrc] at h
    exact h
  · intro a b ha hb hab
    have hq : a * this.size2 + b < this.sparsity.size := by
      have h1 : this.sparsity.size = this.size1 * this.size2 := hsize
      rw [h1]
      calc a * this.size2 + b < a * this.size2 + this.size2 := by omega
        _ = (a + 1) * this.size2 := by ring
        _ ≤ this.size1 * this.size2 := Nat.mul_le_mul_right _ ha
    apply hun _ hq _ _ _ (Traces.refl _ _)
    intro hmem
    obtain ⟨p, hp, hpe⟩ := List.mem_map.1 hmem
    obtain ⟨p1, p2⟩ := hmemL p hp
    simp only [hgi _ p1, hgj _ p2] at hpe
    have hbp := hjj _ (List.getElem_mem p2)
    have hcast : ((a * this.size2 + b : Nat) : Int)
        = (a : Int) * (this.sparsity.size2 : Int) + (b : Int) := by
      push_cast
      rfl
    rw [hcast] at hpe
    obtain ⟨e1, e2⟩ := flat_index_inj _ _ _ _ _ hbp.1 hbp.2 (Int.natCast_nonneg _)
      (by exact_mod_cast hb) hpe
    rcases hab with h | h
    · exact h (e1 ▸ List.getElem_mem p1)
    · exact h (e2 ▸ List.getElem_mem p2)

/-- The 2x1 leaf `v`, a handle of its own, is assigned to the last column of
the dense 2x3 leaf `m`. -/
theorem setSub_dense_other_example :
    ∃ r s1, setSub stdCtx symM [0, 1] [2] (.other symV) 2 = (.ok (), r, s1) ∧
      r.sparsity = symM.sparsity ∧
      (∀ (i j : Nat) (hi : i < [(0 : Int), 1].length) (hj : j < [(2 : Int)].length),
        Traces r ([(0 : Int), 1][i] * (symM.size2 : Int) + [(2 : Int)][j]).toNat symV
          (i * [(2 : Int)].length + j)) ∧
      (∀ a b : Nat, a < symM.size1 → b < symM.size2 →
        ((a : Int) ∉ [(0 : Int), 1] ∨ (b : Int) ∉ [(2 : Int)]) →
        Traces r (a * symM.size2 + b) symM (a * symM.size2 + b)) :=
  setSub_dense_other stdCtx std_simplifyFaithful symM symV [0, 1] [2] 2 rfl rfl
    (by decide) (by decide) rfl rfl (by decide) (by decide) (by decide) (by decide)

/-- In the graph left by `u.setSub({1,0},{0},u)` no chain of suppliers leads
from one of the nonzeros listed here to nonzero 1 of `u`. -/
theorem selfPass_no_trace (m e : MX) (i k : Nat) (h : Traces m i e k) :
    e = symU → k = 1 →
    ((m = selfPass2 ∧ i = 0) ∨ (m = selfRead1 ∧ i = 0) ∨ (m = selfPass1 ∧ i = 1) ∨
      (m = selfRead0 ∧ i = 0) ∨ (m = symU ∧ i = 0)) → False := by
  induction h with
  | refl m i =>
    intro he hk hS
    subst he
    subst hk
    rcases hS with ⟨h, -⟩ | ⟨h, -⟩ | ⟨h, -⟩ | ⟨h, -⟩ | ⟨-, h⟩
    · exact absurd h (by simp [symU, selfPass2])
    · exact absurd h (by simp [symU, selfRead1])
    · exact absurd h (by simp [symU, selfPass1])
    · exact absurd h (by simp [symU, selfRead0])
    · exact absurd h (by decide)
  | @step m d e i j k hs _ ih =>
    intro he hk hS
    apply ih he hk
    rcases hs with hm | ⟨hd, hj⟩
    · rcases hS with ⟨h, hi⟩ | ⟨h, hi⟩ | ⟨h, hi⟩ | ⟨h, hi⟩ | ⟨h, hi⟩
      · subst h
        subst hi
        obtain ⟨p, h1, h2, h3⟩ := hm
        simp only [List.getElem?_cons_zero, Option.some.injEq] at h1 h3
        have hp : p = 1 := by omega
        subst hp
        simp only [List.getElem?_cons_succ, List.getElem?_cons_zero, Option.some.injEq] at h2
        right; left
        exact ⟨h2.symm, by omega⟩
      · subst h
        subst hi
        obtain ⟨p, h1, h2, h3⟩ := hm
        simp only [List.getElem?_cons_zero, Option.some.injEq] at h1 h3
        have hp : p = 0 := by omega
        subst hp
        simp only [List.getElem?_cons_zero, Option.some.injEq] at h2
        right; right; left
        exact ⟨h2.symm, by omega⟩
      · subst h
        subst hi
        obtain ⟨p, h1, h2, h3⟩ := hm
        simp only [List.getElem?_cons_succ, List.getElem?_cons_zero, Option.some.injEq] at h1 h3
        have hp : p = 1 := by omega
        subst hp
        simp only [List.getElem?_cons_succ, List.getElem?_cons_zero, Option.some.injEq] at h2
        right; right; right; left
        exact ⟨h2.symm, by omega⟩
      · subst h
        subst hi
        obtain ⟨p, h1, h2, h3⟩ := hm
        simp only [List.getElem?_cons_zero, Option.some.injEq] at h1 h3
        have hp : p = 0 := by omega
        subst hp
        simp only [List.getElem?_cons_zero, Option.some.injEq] at h2
        right; right; right; right
        exact ⟨h2.symm, by omega⟩
      · subst h
        exact absurd hm (by simp [symU, mapsFrom])
    · have hj' : j = i := by omega
      rw [← hd, hj']
      exact hS

/-- C15, evaluation at the failing input.  The dense 2x1 leaf `u` is assigned
to itself with its rows exchanged, `u.setSub({1,0},{0},u)`: target and value
are dense, the value has the shape `|ii| x |jj|`, the indices are in range
and not repeated.  The first pass stores `el[0]` into nonzero 1 and assigns
the new node to the target.  Since `el` is bound to the target, the second
pass reads `el[1]` from that new node and stores it into nonzero 0.  In the
result both nonzeros take their value from nonzero 0 of `u`, and nonzero 0
does not take its value from nonzero 1 of `u`.  The same call with the value
bound to another handle of the node of `u` reads `el[1]` from `u`. -/
theorem setSub_self_assignment :
    symU.isDense = true ∧ symU.size1 = 2 ∧ symU.size2 = 1 ∧
    setSub stdCtx symU [1, 0] [0] .self 2 = (.ok (), selfPass2, 6) ∧
    Traces selfPass2 1 symU 0 ∧ Traces selfPass2 0 symU 0 ∧
    ¬ Traces selfPass2 0 symU 1 ∧
    setSub stdCtx symU [1, 0] [0] (.other symU) 2
      = (.ok (), .mapping 5 (CRSSparsity.dense 2 1)
          [selfPass1, .mapping 4 (CRSSparsity.dense 1 1) [symU] [1] [0]] [0, 1] [1, 0], 6) := by
  have s0 : selfRead0.suppliedBy 0 symU ((0 : Nat) : Int) := Or.inl ⟨0, rfl, rfl, rfl⟩
  have s1 : selfPass1.suppliedBy 1 selfRead0 ((0 : Nat) : Int) := Or.inl ⟨1, rfl, rfl, rfl⟩
  have s2 : selfRead1.suppliedBy 0 selfPass1 ((1 : Nat) : Int) := Or.inl ⟨0, rfl, rfl, rfl⟩
  have s3 : selfPass2.suppliedBy 0 selfRead1 ((0 : Nat) : Int) := Or.inl ⟨1, rfl, rfl, rfl⟩
  have s4 : selfPass2.suppliedBy 1 selfPass1 ((1 : Nat) : Int) := Or.inl ⟨0, rfl, rfl, rfl⟩
  have t1 : Traces selfPass1 1 symU 0 := Traces.step s1 (Traces.step s0 (Traces.refl _ _))
  refine ⟨rfl, rfl, rfl, ?_, Traces.step s4 t1, Traces.step s3 (Traces.step s2 t1), ?_, ?_⟩
  · rw [setSub, dif_neg (by decide)]
    rfl
  · intro h
    exact selfPass_no_trace _ _ _ _ h rfl rfl (Or.inl ⟨rfl, rfl⟩)
  · rw [setSub, dif_neg (by decide)]
    rfl

end MX

end CasADi
